import Mathlib

/-!
# core-js-101: objects and promises tasks

A shallow embedding of `src/05-objects-tasks.js` (the CSS selector builder) and
`src/06-promises-tasks.js` (the promise helpers), with the properties of the
specification stated and proved over it.

JavaScript strings are modelled by `String`, arrays by `List`, a mutable
`Builder` object by explicit state passing: a method is a computation in
`ExceptT String (StateM BuilderState)`, so a `throw` carries the message of the
thrown `Error` and leaves behind the state the object has at that moment.

A promise is modelled by the way it settles (`Promise`), and, where the order of
events matters, together with the instant at which it settles (`TimedPromise`). The
host functions `JSON.stringify` and `JSON.parse` are parameters of `getJSON` and
`fromJSON`; a small codec for plain data stands in for them in the examples.
-/

namespace CoreJs

/-! ## The selector builder (`05-objects-tasks.js`) -/

/-- The object literal held in `this.state` of a `Builder`. The three arrays hold
the already prefixed parts; `lastAddedItemIdx` is `null` (`none`) or a number. -/
structure BuilderState where
  element : String
  id : String
  classes : List String
  attributes : List String
  pseudoClasses : List String
  pseudoElement : String
  lastAddedItemIdx : Option Nat
  deriving DecidableEq, Repr

/-- The state written by the `Builder` constructor. -/
def Builder.new : BuilderState :=
  { element := ""
    id := ""
    classes := []
    attributes := []
    pseudoClasses := []
    pseudoElement := ""
    lastAddedItemIdx := none }

/-- Message of the `Error` thrown when a singleton part is written twice. -/
def duplicateMessage : String :=
  "Element, id and pseudo-element should not occur more then one time inside the selector"

/-- Message of the `Error` thrown when the parts come in the wrong order. -/
def orderMessage : String :=
  "Selector parts should be arranged in the following order: element, id, class, attribute, pseudo-class, pseudo-element"

/-- JavaScript truthiness of a string: every string but the empty one. -/
def truthyString (s : String) : Bool := s != ""

/-- JavaScript truthiness of a value that is `null` or a number. -/
def truthyIdx : Option Nat → Bool
  | none => false
  | some n => n != 0

/-- The guard `lastAddedItemIdx && lastAddedItemIdx > r`. -/
def idxAbove (idx : Option Nat) (r : Nat) : Bool :=
  truthyIdx idx && (match idx with
    | none => false
    | some n => decide (r < n))

/-- A method of `Builder`: it may throw an `Error` (kept as its message) and it
reads and writes `this.state`. -/
abbrev BuilderM := ExceptT String (StateM BuilderState)

/-- Method `element(value)` of `Builder`: the duplicate guard `if (element)`, then the
order guard `if (lastAddedItemIdx)`, then the two writes. -/
def Builder.element (value : String) : BuilderM Unit := do
  let st ← get
  if truthyString st.element then
    throw duplicateMessage
  if truthyIdx st.lastAddedItemIdx then
    throw orderMessage
  modify fun s => { s with element := value }
  modify fun s => { s with lastAddedItemIdx := some 1 }

/-- Method `id(value)` of `Builder`: the duplicate guard `if (id)`, then the order guard
against 2, then the two writes; the slot keeps the text with its `#`. -/
def Builder.id (value : String) : BuilderM Unit := do
  let st ← get
  if truthyString st.id then
    throw duplicateMessage
  if idxAbove st.lastAddedItemIdx 2 then
    throw orderMessage
  modify fun s => { s with id := "#" ++ value }
  modify fun s => { s with lastAddedItemIdx := some 2 }

/-- Method `class(value)` of `Builder`: the order guard against 3, then the push of
the text with its `.` and the write of the rank. -/
def Builder.class_ (value : String) : BuilderM Unit := do
  let st ← get
  if idxAbove st.lastAddedItemIdx 3 then
    throw orderMessage
  modify fun s => { s with classes := s.classes ++ ["." ++ value] }
  modify fun s => { s with lastAddedItemIdx := some 3 }

/-- Method `attr(value)` of `Builder`: the order guard against 4, then the push of the
text in square brackets and the write of the rank. -/
def Builder.attr (value : String) : BuilderM Unit := do
  let st ← get
  if idxAbove st.lastAddedItemIdx 4 then
    throw orderMessage
  modify fun s => { s with attributes := s.attributes ++ ["[" ++ value ++ "]"] }
  modify fun s => { s with lastAddedItemIdx := some 4 }

/-- Method `pseudoClass(value)` of `Builder`: the order guard against 5, then the push
of the text with its `:` and the write of the rank. -/
def Builder.pseudoClass (value : String) : BuilderM Unit := do
  let st ← get
  if idxAbove st.lastAddedItemIdx 5 then
    throw orderMessage
  modify fun s => { s with pseudoClasses := s.pseudoClasses ++ [":" ++ value] }
  modify fun s => { s with lastAddedItemIdx := some 5 }

/-- Method `pseudoElement(value)` of `Builder`: the duplicate guard
`if (pseudoElement)` and no order guard, then the two writes. -/
def Builder.pseudoElement (value : String) : BuilderM Unit := do
  let st ← get
  if truthyString st.pseudoElement then
    throw duplicateMessage
  modify fun s => { s with pseudoElement := "::" ++ value }
  modify fun s => { s with lastAddedItemIdx := some 6 }

/-- Method `stringify()` of `Builder`: the three arrays joined with `''`, and the six
parts put one after the other. -/
def Builder.stringify (st : BuilderState) : String :=
  let classes := String.join st.classes
  let attributes := String.join st.attributes
  let pseudoClasses := String.join st.pseudoClasses
  st.element ++ st.id ++ classes ++ attributes ++ pseudoClasses ++ st.pseudoElement

/-- Calls a method on a builder in state `st`: the outcome of the call and the
state of the builder afterwards. -/
def Builder.invoke (m : BuilderM Unit) (st : BuilderState) : Except String Unit × BuilderState :=
  (m.run).run st

/-- The value of the expression `builder.m(...)`: the builder itself (`return this`)
when the method returns, the thrown message otherwise. -/
def Builder.perform (m : BuilderM Unit) (st : BuilderState) : Except String BuilderState :=
  match Builder.invoke m st with
  | (.ok _, st') => .ok st'
  | (.error e, _) => .error e

/-- The six mutating methods of `Builder`, in the order of the comment above them
in the source. -/
inductive Method where
  | element | id | class_ | attr | pseudoClass | pseudoElement
  deriving DecidableEq, Repr

/-- The position of a part in `element, id, class, attribute, pseudo-class,
pseudo-element` (the numbers 1 to 6 of the source comment). -/
def Method.rank : Method → Nat
  | .element => 1
  | .id => 2
  | .class_ => 3
  | .attr => 4
  | .pseudoClass => 5
  | .pseudoElement => 6

/-- The parts that may occur once only: element, id and pseudo-element. -/
def Method.isSingleton : Method → Bool
  | .element | .id | .pseudoElement => true
  | _ => false

/-- One method call with its string argument. -/
structure Call where
  method : Method
  value : String
  deriving DecidableEq, Repr

/-- Dispatch of a call to the method of `Builder` it names. -/
def Builder.call (c : Call) : BuilderM Unit :=
  match c.method with
  | .element => Builder.element c.value
  | .id => Builder.id c.value
  | .class_ => Builder.class_ c.value
  | .attr => Builder.attr c.value
  | .pseudoClass => Builder.pseudoClass c.value
  | .pseudoElement => Builder.pseudoElement c.value

/-- The chained expression `builder.m1(v1).m2(v2)...`, evaluated left to right; the
first throw ends it. -/
def Builder.calls (st : BuilderState) (cs : List Call) : Except String BuilderState :=
  cs.foldlM (fun b c => Builder.perform (Builder.call c) b) st

/-- The states a builder can be in: those a fresh `Builder` reaches by calls that
all return. -/
def Builder.Reachable (st : BuilderState) : Prop :=
  ∃ cs, Builder.calls Builder.new cs = .ok st

/-- Entry operation `cssSelectorBuilder.element`: a new `Builder`, `element(value)`
called on it. -/
def cssSelectorBuilder.element (value : String) : Except String BuilderState :=
  let builder := Builder.new
  Builder.perform (Builder.element value) builder

/-- Entry operation `cssSelectorBuilder.id`: a new `Builder`, `id(value)` called on it. -/
def cssSelectorBuilder.id (value : String) : Except String BuilderState :=
  let builder := Builder.new
  Builder.perform (Builder.id value) builder

/-- Entry operation `cssSelectorBuilder.class`: a new `Builder`, `class(value)` called
on it. -/
def cssSelectorBuilder.class_ (value : String) : Except String BuilderState :=
  let builder := Builder.new
  Builder.perform (Builder.class_ value) builder

/-- Entry operation `cssSelectorBuilder.attr`: a new `Builder`, `attr(value)` called on
it. -/
def cssSelectorBuilder.attr (value : String) : Except String BuilderState :=
  let builder := Builder.new
  Builder.perform (Builder.attr value) builder

/-- Entry operation `cssSelectorBuilder.pseudoClass`: a new `Builder`,
`pseudoClass(value)` called on it. -/
def cssSelectorBuilder.pseudoClass (value : String) : Except String BuilderState :=
  let builder := Builder.new
  Builder.perform (Builder.pseudoClass value) builder

/-- Entry operation `cssSelectorBuilder.pseudoElement`: a new `Builder`,
`pseudoElement(value)` called on it. -/
def cssSelectorBuilder.pseudoElement (value : String) : Except String BuilderState :=
  let builder := Builder.new
  Builder.perform (Builder.pseudoElement value) builder

/-- The entry operation of `cssSelectorBuilder` named by a call. -/
def cssSelectorBuilder.start (c : Call) : Except String BuilderState :=
  match c.method with
  | .element => cssSelectorBuilder.element c.value
  | .id => cssSelectorBuilder.id c.value
  | .class_ => cssSelectorBuilder.class_ c.value
  | .attr => cssSelectorBuilder.attr c.value
  | .pseudoClass => cssSelectorBuilder.pseudoClass c.value
  | .pseudoElement => cssSelectorBuilder.pseudoElement c.value

/-- The expression `cssSelectorBuilder.m0(v0).m1(v1)...`: an entry operation and
the calls chained on the builder it returns. -/
def cssSelectorBuilder.build (c : Call) (cs : List Call) : Except String BuilderState :=
  (cssSelectorBuilder.start c).bind fun builder => Builder.calls builder cs

/-- Something with a `stringify()` method: a `Builder`, or the object literal that
`combine` returns, which holds the finished text in its field `string`. -/
inductive Selector where
  | builder (state : BuilderState)
  | combined (string : String)
  deriving DecidableEq, Repr

/-- The method `stringify()` of either kind of selector. -/
def Selector.stringify : Selector → String
  | .builder state => Builder.stringify state
  | .combined string => string

/-- Operation `cssSelectorBuilder.combine`: the object whose `string` is the text of
the first selector, a blank, the combinator, a blank, the text of the second. -/
def cssSelectorBuilder.combine (selector1 : Selector) (combinator : String)
    (selector2 : Selector) : Selector :=
  .combined (selector1.stringify ++ " " ++ combinator ++ " " ++ selector2.stringify)

/-! ### The template of the specification -/

/-- The values passed to the calls of one method, in call order. -/
def valuesOf (m : Method) (cs : List Call) : List String :=
  (cs.filter fun c => c.method = m).map Call.value

/-- The text the specification gives for a sequence of calls: the element value,
`#id`, every `.class`, every `[attribute]`, every `:pseudoClass`, `::pseudoElement`,
in this order and with nothing in between; a singleton never set gives `""`. -/
def selectorTemplate (cs : List Call) : String :=
  ((valuesOf .element cs).head?.getD "")
    ++ (((valuesOf .id cs).head?.map fun v => "#" ++ v).getD "")
    ++ String.join ((valuesOf .class_ cs).map fun c => "." ++ c)
    ++ String.join ((valuesOf .attr cs).map fun a => "[" ++ a ++ "]")
    ++ String.join ((valuesOf .pseudoClass cs).map fun p => ":" ++ p)
    ++ (((valuesOf .pseudoElement cs).head?.map fun v => "::" ++ v).getD "")

/-! ## The state as a function of the calls made -/

/-- The state a builder is in after the calls `cs` have all returned, read off the
calls themselves. -/
def stateOf (cs : List Call) : BuilderState :=
  { element := (valuesOf .element cs).head?.getD ""
    id := ((valuesOf .id cs).head?.map fun v => "#" ++ v).getD ""
    classes := (valuesOf .class_ cs).map fun c => "." ++ c
    attributes := (valuesOf .attr cs).map fun a => "[" ++ a ++ "]"
    pseudoClasses := (valuesOf .pseudoClass cs).map fun p => ":" ++ p
    pseudoElement := ((valuesOf .pseudoElement cs).head?.map fun v => "::" ++ v).getD ""
    lastAddedItemIdx := cs.getLast?.map fun c => c.method.rank }

/-- A sequence of calls in which the ranks never decrease and no singleton method
occurs twice. -/
def ValidCalls (cs : List Call) : Prop :=
  (cs.map fun c => c.method.rank).Pairwise (· ≤ ·) ∧
    ∀ m : Method, m.isSingleton = true → (cs.map Call.method).count m ≤ 1

/-- Whether the slot a singleton method writes already holds a non-empty string,
which is what the guards `if (element)`, `if (id)`, `if (pseudoElement)` test. The
repeatable methods have no such guard. -/
def Builder.slotFilled (m : Method) (st : BuilderState) : Bool :=
  match m with
  | .element => truthyString st.element
  | .id => truthyString st.id
  | .pseudoElement => truthyString st.pseudoElement
  | _ => false

/-- The third example of the docstring of `cssSelectorBuilder`: three nested
`combine` calls over four builders. -/
def docstringCombineExample : Except String Selector := do
  let divMain ← cssSelectorBuilder.build ⟨.element, "div"⟩
    [⟨.id, "main"⟩, ⟨.class_, "container"⟩, ⟨.class_, "draggable"⟩]
  let tableData ← cssSelectorBuilder.build ⟨.element, "table"⟩ [⟨.id, "data"⟩]
  let tr ← cssSelectorBuilder.build ⟨.element, "tr"⟩ [⟨.pseudoClass, "nth-of-type(even)"⟩]
  let td ← cssSelectorBuilder.build ⟨.element, "td"⟩ [⟨.pseudoClass, "nth-of-type(even)"⟩]
  pure (cssSelectorBuilder.combine (.builder divMain) "+"
    (cssSelectorBuilder.combine (.builder tableData) "~"
      (cssSelectorBuilder.combine (.builder tr) " " (.builder td))))

/-! ## The promise helpers (`06-promises-tasks.js`) -/

/-- The JavaScript values the promise helpers see. Numbers are kept exact (an
integer, or `NaN`); `error message` is an `Error` object with that message. -/
inductive JSValue where
  | undefined
  | null
  | boolean (b : Bool)
  | number (n : Int)
  | nan
  | string (s : String)
  | error (message : String)
  | array (items : List JSValue)
  | object (props : List (String × JSValue))

/-- JavaScript truthiness, as tested by `if (isPositiveAnswer)`. -/
def JSValue.truthy : JSValue → Bool
  | .undefined => false
  | .null => false
  | .nan => false
  | .boolean b => b
  | .number n => n != 0
  | .string s => s != ""
  | .error _ => true
  | .array _ => true
  | .object _ => true

/-- The test `v === undefined`. -/
def JSValue.isUndefined : JSValue → Bool
  | .undefined => true
  | _ => false

/-- The test `v === s` for a string literal `s`. -/
def JSValue.strictEqString (v : JSValue) (s : String) : Bool :=
  match v with
  | .string t => t == s
  | _ => false

/-- The property read `v.key`: `undefined` when `v` has no such property. -/
def JSValue.get (v : JSValue) (key : String) : JSValue :=
  match v with
  | .object props => (props.lookup key).getD .undefined
  | _ => .undefined

/-- A promise, by the way it settles: fulfilled with a value or rejected with a
reason. -/
inductive Promise where
  | fulfilled (value : JSValue)
  | rejected (reason : JSValue)

/-- The promise `Promise.resolve(value)` for a value that is not itself a promise. -/
def Promise.resolve (value : JSValue) : Promise := .fulfilled value

/-- The promise `Promise.reject(reason)`. -/
def Promise.reject (reason : JSValue) : Promise := .rejected reason

/-- The value a promise is fulfilled with, if it is fulfilled. -/
def Promise.value? : Promise → Option JSValue
  | .fulfilled value => some value
  | .rejected _ => none

/-- Whether a promise is fulfilled. -/
def Promise.isFulfilled : Promise → Bool
  | .fulfilled _ => true
  | .rejected _ => false

/-- Function `willYouMarryMe`. A call without argument passes `undefined`. -/
def willYouMarryMe (isPositiveAnswer : JSValue) : Promise :=
  if isPositiveAnswer.isUndefined then
    Promise.reject (.error "Wrong parameter is passed! Ask her again.")
  else if isPositiveAnswer.truthy then
    Promise.resolve (.string "Hooray!!! She said \"Yes\"!")
  else
    Promise.resolve (.string "Oh no, she said \"No\".")

/-- The array that `Promise.allSettled(array)` is fulfilled with (it never
rejects): one record per input promise, in input order. -/
def Promise.allSettled (array : List Promise) : List JSValue :=
  array.map fun p =>
    match p with
    | .fulfilled value => .object [("status", .string "fulfilled"), ("value", value)]
    | .rejected reason => .object [("status", .string "rejected"), ("reason", reason)]

/-- Function `processAllPromises`: the records of `Promise.allSettled`, filtered by
`status === 'fulfilled'`, mapped to their `value`; the `await` cannot throw, since the
promise of `allSettled` never rejects. -/
def processAllPromises (array : List Promise) : Promise :=
  let arrOfObjectResults := Promise.allSettled array
  let resultArr := (arrOfObjectResults.filter
    fun obj => (obj.get "status").strictEqString "fulfilled").map fun el => el.get "value"
  Promise.resolve (.array resultArr)

/-! ### Arithmetic on numbers -/

/-- The number of low binary digits that a double drops from a whole number `a`: the
least `s` with `a / 2 ^ s < 2 ^ 53`. The first argument bounds the search. -/
def Double.droppedBits : Nat → Nat → Nat
  | 0, _ => 0
  | fuel + 1, a => if a < 2 ^ 53 then 0 else Double.droppedBits fuel (a / 2) + 1

/-- The double nearest to the whole number `a`: its 53 leading binary digits, rounded
to nearest on the digits dropped, to the even neighbour when these are exactly one
half. -/
def Double.roundNat (a : Nat) : Nat :=
  let s := Double.droppedBits a a
  let q := a / 2 ^ s
  let r := a % 2 ^ s
  if 2 ^ s < 2 * r ∨ (2 * r = 2 ^ s ∧ q % 2 = 1) then (q + 1) * 2 ^ s else q * 2 ^ s

/-- The double nearest to the integer `n`: the value that an arithmetic operation of
the language returns when its exact result is `n`. Results beyond the range of doubles,
from `2 ^ 1024` on, which would be `Infinity`, are not modelled. -/
def Double.ofInt (n : Int) : Int :=
  if n < 0 then -(Double.roundNat n.natAbs : Int) else (Double.roundNat n.natAbs : Int)

/-! ### Rectangle (`05-objects-tasks.js`) -/

/-- The object made by `new Rectangle(width, height)`: its two own fields, for whole
numbers of at most `2 ^ 53` in absolute value, which a number of the language holds
exactly. -/
structure Rectangle where
  width : Int
  height : Int
  deriving DecidableEq, Repr

/-- The constructor function `Rectangle(width, height)`, called with `new`. -/
def Rectangle.new (width height : Int) : Rectangle :=
  { width := width, height := height }

/-- Method `getArea()` of `Rectangle.prototype`, as a computation on the object it is
called on: it reads `this.width` and `this.height` and returns their product, which
is the double nearest to the exact product. -/
def Rectangle.getArea : StateM Rectangle Int := do
  let self ← get
  return Double.ofInt (self.width * self.height)

/-- The call `builder.stringify()` as a method call on the builder: it reads
`this.state` into local variables and returns the text. -/
def Builder.stringifyCall : BuilderM String := do
  let st ← get
  let classes := String.join st.classes
  let attributes := String.join st.attributes
  let pseudoClasses := String.join st.pseudoClasses
  return st.element ++ st.id ++ classes ++ attributes ++ pseudoClasses ++ st.pseudoElement

/-! ### The JSON helpers (`05-objects-tasks.js`) -/

/-- Function `getJSON`: the text the host function `JSON.stringify`, passed as
`stringify`, gives for `obj`. -/
def getJSON (stringify : JSValue → String) (obj : JSValue) : String :=
  stringify obj

/-- A prototype: the methods it offers, by name. A method is given the object it is
called on and returns a value. -/
structure Prototype where
  methods : List (String × (JSValue → JSValue))

/-- A value together with the prototype that `Object.setPrototypeOf` has attached to
it; `none` when none was attached and the value has the prototype it was made with. -/
structure Instance where
  value : JSValue
  proto : Option Prototype

/-- The host function `Object.setPrototypeOf(o, proto)`: a `TypeError` for `null`
and `undefined`; an object, array or `Error` gets the prototype; any other value, a
primitive, is left as it is. -/
def Object.setPrototypeOf (o : JSValue) (proto : Prototype) : Except JSValue Instance :=
  match o with
  | .undefined => .error (.error "Object.setPrototypeOf called on null or undefined")
  | .null => .error (.error "Object.setPrototypeOf called on null or undefined")
  | .object props => .ok ⟨.object props, some proto⟩
  | .array items => .ok ⟨.array items, some proto⟩
  | .error message => .ok ⟨.error message, some proto⟩
  | primitive => .ok ⟨primitive, none⟩

/-- Function `fromJSON`: the host function `JSON.parse`, passed as `parse`, reads the
text (it throws on a text that is no JSON), `Object.setPrototypeOf` attaches `proto`
to the value read, and that value is returned. -/
def fromJSON (parse : String → Except JSValue JSValue) (proto : Prototype) (json : String) :
    Except JSValue Instance := do
  let parsedObj ← parse json
  Object.setPrototypeOf parsedObj proto

/-- Whether a value is an object or an array, the two kinds of plain data that carry
own fields. -/
def JSValue.isObject : JSValue → Bool
  | .object _ => true
  | .array _ => true
  | _ => false

/-- The product `a * b` of two numbers, the double nearest to the exact product;
operands that are no numbers, which would be converted first, are not modelled and
give `NaN`. -/
def JSValue.times : JSValue → JSValue → JSValue
  | .number x, .number y => .number (Double.ofInt (x * y))
  | _, _ => .nan

/-- The method call `o.name()`: an own field of that name is plain data, no function,
so the call throws; otherwise the method of the attached prototype runs on the object. -/
def Instance.call (o : Instance) (name : String) : Except JSValue JSValue :=
  match o.value with
  | .object props =>
    match props.lookup name, o.proto with
    | some _, _ => .error (.error "not a function")
    | none, none => .error (.error "not a function")
    | none, some proto =>
      match proto.methods.lookup name with
      | some method => .ok (method (.object props))
      | none => .error (.error "not a function")
  | _ => .error (.error "not a function")

/-- The prototype `Rectangle.prototype`, with its method `getArea`, which returns
`this.width * this.height`. -/
def Rectangle.prototype : Prototype :=
  ⟨[("getArea", fun self => (self.get "width").times (self.get "height"))]⟩

/-- The own fields of a rectangle, as the plain data `JSON.stringify` sees. -/
def Rectangle.toJSValue (r : Rectangle) : JSValue :=
  .object [("width", .number r.width), ("height", .number r.height)]

/-! ### A host codec for the examples -/

/-- The double quote. -/
def JSON.quoteChar : Char := Char.ofNat 34

/-- The backslash. -/
def JSON.escapeChar : Char := Char.ofNat 92

/-- The opening brace. -/
def JSON.openBrace : Char := Char.ofNat 123

/-- The closing brace. -/
def JSON.closeBrace : Char := Char.ofNat 125

/-- The characters of a string as JSON prints them: a backslash in front of a double
quote and of a backslash. The escapes of control characters are not modelled. -/
def JSON.escape : List Char → List Char
  | [] => []
  | c :: cs =>
    if c = JSON.quoteChar ∨ c = JSON.escapeChar then JSON.escapeChar :: c :: JSON.escape cs
    else c :: JSON.escape cs

/-- A string between double quotes, escaped. -/
def JSON.quote (s : String) : String :=
  String.mk (JSON.quoteChar :: JSON.escape s.data ++ [JSON.quoteChar])

mutual
/-- The host function `JSON.stringify` on plain data, in the compact form without
blanks: `null`, `true`, `false`, an integer in decimal digits, a quoted string, an
array in square brackets, an object in braces with its fields in order. `NaN` and,
inside an array, `undefined` print as `null`; an `Error` has no own fields to print. -/
def JSON.stringify : JSValue → String
  | .undefined => "null"
  | .null => "null"
  | .boolean true => "true"
  | .boolean false => "false"
  | .number n => toString n
  | .nan => "null"
  | .string s => JSON.quote s
  | .error _ => String.mk [JSON.openBrace, JSON.closeBrace]
  | .array items => "[" ++ JSON.stringifyItems items ++ "]"
  | .object props =>
    String.mk [JSON.openBrace] ++ JSON.stringifyProps props ++ String.mk [JSON.closeBrace]
/-- The elements of an array, separated by commas. -/
def JSON.stringifyItems : List JSValue → String
  | [] => ""
  | [x] => JSON.stringify x
  | x :: y :: xs => JSON.stringify x ++ "," ++ JSON.stringifyItems (y :: xs)
/-- The fields of an object, each as its quoted name, a colon and its value, separated
by commas. -/
def JSON.stringifyProps : List (String × JSValue) → String
  | [] => ""
  | [(k, v)] => JSON.quote k ++ ":" ++ JSON.stringify v
  | (k, v) :: p :: ps =>
    JSON.quote k ++ ":" ++ JSON.stringify v ++ "," ++ JSON.stringifyProps (p :: ps)
end

/-- Reads decimal digits: the number read so far, and the rest of the text. -/
def JSON.readDigits : List Char → Nat → Nat × List Char
  | [], acc => (acc, [])
  | c :: cs, acc =>
    if c.isDigit then JSON.readDigits cs (acc * 10 + (c.toNat - 48)) else (acc, c :: cs)

/-- Reads a string behind its opening double quote, up to the closing one. -/
def JSON.readString : List Char → List Char → Option (String × List Char)
  | [], _ => none
  | [c], acc => if c = JSON.quoteChar then some (String.mk acc.reverse, []) else none
  | c :: d :: cs, acc =>
    if c = JSON.quoteChar then some (String.mk acc.reverse, d :: cs)
    else if c = JSON.escapeChar then
      if d = JSON.quoteChar ∨ d = JSON.escapeChar then JSON.readString cs (d :: acc) else none
    else JSON.readString (d :: cs) (c :: acc)

mutual
/-- Reads one JSON value at the head of the text; the first argument bounds the depth
of nesting. -/
def JSON.readValue : Nat → List Char → Option (JSValue × List Char)
  | 0, _ => none
  | _ + 1, [] => none
  | _ + 1, 'n' :: 'u' :: 'l' :: 'l' :: cs => some (.null, cs)
  | _ + 1, 't' :: 'r' :: 'u' :: 'e' :: cs => some (.boolean true, cs)
  | _ + 1, 'f' :: 'a' :: 'l' :: 's' :: 'e' :: cs => some (.boolean false, cs)
  | _ + 1, '[' :: ']' :: cs => some (.array [], cs)
  | fuel + 1, '[' :: cs => (JSON.readItems fuel cs).map fun r => (.array r.1, r.2)
  | fuel + 1, c :: cs =>
    if c = JSON.quoteChar then
      (JSON.readString cs []).map fun r => (.string r.1, r.2)
    else if c = JSON.openBrace then
      match cs with
      | [] => none
      | d :: rest =>
        if d = JSON.closeBrace then some (.object [], rest)
        else (JSON.readProps fuel cs).map fun r => (.object r.1, r.2)
    else if c = '-' then
      match cs with
      | [] => none
      | d :: _ =>
        if d.isDigit then
          some (.number (-((JSON.readDigits cs 0).1 : Int)), (JSON.readDigits cs 0).2)
        else none
    else if c.isDigit then
      some (.number ((JSON.readDigits (c :: cs) 0).1 : Int), (JSON.readDigits (c :: cs) 0).2)
    else none
/-- Reads the elements of an array behind its opening bracket, up to the closing one. -/
def JSON.readItems : Nat → List Char → Option (List JSValue × List Char)
  | 0, _ => none
  | fuel + 1, cs =>
    match JSON.readValue fuel cs with
    | none => none
    | some (_, []) => none
    | some (v, d :: rest) =>
      if d = ',' then (JSON.readItems fuel rest).map fun r => (v :: r.1, r.2)
      else if d = ']' then some ([v], rest)
      else none
/-- Reads the fields of an object behind its opening brace, up to the closing one. -/
def JSON.readProps : Nat → List Char → Option (List (String × JSValue) × List Char)
  | 0, _ => none
  | _ + 1, [] => none
  | fuel + 1, c :: cs =>
    if c = JSON.quoteChar then
      match JSON.readString cs [] with
      | none => none
      | some (_, []) => none
      | some (k, d :: rest) =>
        if d = ':' then
          match JSON.readValue fuel rest with
          | none => none
          | some (_, []) => none
          | some (v, e :: rest') =>
            if e = ',' then (JSON.readProps fuel rest').map fun r => ((k, v) :: r.1, r.2)
            else if e = JSON.closeBrace then some ([(k, v)], rest')
            else none
        else none
    else none
end

/-- The host function `JSON.parse` on the texts `JSON.stringify` prints: the value
read when the whole text is one JSON value, a `SyntaxError` otherwise. -/
def JSON.parse (text : String) : Except JSValue JSValue :=
  match JSON.readValue text.length text.data with
  | some (v, []) => .ok v
  | _ => .error (.error "Unexpected token in JSON")

/-! ### Builders as objects -/

/-- The `Builder` objects created so far; a reference to one of them is its index. -/
abbrev Heap := List BuilderState

/-- The expression `new Builder()`: a new object with the state the constructor
writes, and the reference to it. -/
def Heap.newBuilder (heap : Heap) : Nat × Heap :=
  (heap.length, heap ++ [Builder.new])

/-- A method call on the object behind a reference: the outcome of the call, and the
heap in which that object has the state the method left. -/
def Heap.invoke (heap : Heap) (builder : Nat) (m : BuilderM Unit) :
    Except String Unit × Heap :=
  match heap[builder]? with
  | none => (.error "not a Builder", heap)
  | some st => ((Builder.invoke m st).1, heap.set builder (Builder.invoke m st).2)

/-- An entry operation of `cssSelectorBuilder` with the objects in view:
`const builder = new Builder(); builder.m(value); return builder;`. -/
def cssSelectorBuilder.startOn (heap : Heap) (c : Call) : Except String Nat × Heap :=
  let created := heap.newBuilder
  let called := created.2.invoke created.1 (Builder.call c)
  (called.1.map fun _ => created.1, called.2)

/-! ### Promises that may still be pending -/

/-- A promise handed to a helper, with the instant at which it settles, counted from
the call of the helper: `settledAt = 0` for a promise that is already settled when the
helper is called, a later instant for one that is still pending then. -/
structure TimedPromise where
  settledAt : Nat
  outcome : Promise

/-- A caller-supplied function of two arguments: it returns a value or throws one. -/
abbrev Action := JSValue → JSValue → Except JSValue JSValue

/-- The call `arr.reduce(action)`, without initial value: a `TypeError` on the empty
array, otherwise the first element is the accumulator and `action(acc, el)` runs on
every further element in order; a throw of `action` ends it. -/
def reduce (arr : List JSValue) (action : Action) : Except JSValue JSValue :=
  match arr with
  | [] => .error (.error "Reduce of empty array with no initial value")
  | first :: rest => rest.foldlM action first

/-- What the callback of `array.map` in `chainPromises` does to `resultsArr` when it
resumes from `await prom`: `resultsArr.push(...)` for a fulfilled promise, nothing for
a rejected one (the empty `catch`). -/
def chainPromises.resumed (resultsArr : List JSValue) (prom : Promise) : List JSValue :=
  match prom with
  | .fulfilled value => resultsArr ++ [value]
  | .rejected _ => resultsArr

/-- Function `chainPromises`. `array.map` starts one callback per promise; each stops
at its `await prom`. The function then awaits the array that `map` returned, which is
no promise, so it resumes on the next turn of the job queue: after the callbacks whose
promise was already settled (their jobs were queued first, in array order) and before
the callbacks whose promise was still pending. `resultsArr` therefore holds what the
first kind pushed when `reduce` runs. A throw of `reduce` rejects the returned promise. -/
def chainPromises (array : List TimedPromise) (action : Action) : Promise :=
  let resumedBefore := array.filter fun prom => prom.settledAt = 0
  let resultsArr := resumedBefore.foldl
    (fun acc prom => chainPromises.resumed acc prom.outcome) []
  match reduce resultsArr action with
  | .error e => .rejected e
  | .ok result => Promise.resolve result

/-- The action `(a, b) => a + b` of the docstring of `chainPromises`, on two numbers
and on two strings; other operands, which no example uses, are not modelled and give
`NaN`. -/
def sumAction : Action := fun a b =>
  match a, b with
  | .number x, .number y => .ok (.number (x + y))
  | .string x, .string y => .ok (.string (x ++ y))
  | _, _ => .ok .nan

/-- A promise handed to `getFastestPromise`, with the instant at which it settles on a
clock whose zero is the call of the function: an instant of at most 0 for a promise
already settled at the call (the smaller the instant, the earlier it settled), a
positive instant for a promise still pending then. -/
structure RacingPromise where
  settledAt : Int
  outcome : Promise

/-- What settles a promise that waits for others: nothing ever (`never`), one of them
(`settled`), or one of several that the instants do not tell apart (`tie`). -/
inductive Raced (α : Type) where
  | never
  | tie
  | settled (first : α)

/-- The promise that settles `Promise.race(array)`. `race` subscribes to the promises
in array order; the reaction of a promise already settled is queued at once, so the
first such promise in the array settles the race, whenever it settled. When every
promise is still pending, the one with the least instant does; when several share the
least instant, which of them settled first is not told by the instants. The race of
the empty array stays pending for ever. -/
def Promise.race (array : List RacingPromise) : Raced RacingPromise :=
  match array.find? fun p => decide (p.settledAt ≤ 0) with
  | some p => .settled p
  | none =>
    match array.filter fun p => array.all fun q => decide (p.settledAt ≤ q.settledAt) with
    | [] => .never
    | [p] => .settled p
    | _ => .tie

/-- Function `getFastestPromise`: `await Promise.race(array)` throws the reason of a
rejected race, which rejects the returned promise; otherwise the value is wrapped in a
one-element array. -/
def getFastestPromise (array : List RacingPromise) : Raced Promise :=
  match Promise.race array with
  | .never => .never
  | .tie => .tie
  | .settled first =>
    match first.outcome with
    | .rejected reason => .settled (.rejected reason)
    | .fulfilled resultValue => .settled (Promise.resolve (.array [resultValue]))

/-! ## Unfolding the methods -/

theorem Builder.invoke_element (value : String) (st : BuilderState) :
    Builder.invoke (Builder.element value) st =
      if truthyString st.element then (.error duplicateMessage, st)
      else if truthyIdx st.lastAddedItemIdx then (.error orderMessage, st)
      else (.ok (), { st with element := value, lastAddedItemIdx := some 1 }) := by
  unfold Builder.invoke Builder.element
  split_ifs <;> simp_all [ExceptT.run, bind, ExceptT.bind, ExceptT.mk, ExceptT.bindCont, StateT.run, StateT.bind, get, getThe, MonadStateOf.get, liftM, monadLift, MonadLift.monadLift, ExceptT.lift, StateT.get, throw, throwThe, MonadExceptOf.throw, pure, ExceptT.pure, StateT.pure, modify, modifyGet, MonadStateOf.modifyGet, StateT.modifyGet, StateT.map, Functor.map]

theorem Builder.invoke_id (value : String) (st : BuilderState) :
    Builder.invoke (Builder.id value) st =
      if truthyString st.id then (.error duplicateMessage, st)
      else if idxAbove st.lastAddedItemIdx 2 then (.error orderMessage, st)
      else (.ok (), { st with id := "#" ++ value, lastAddedItemIdx := some 2 }) := by
  unfold Builder.invoke Builder.id
  split_ifs <;> simp_all [ExceptT.run, bind, ExceptT.bind, ExceptT.mk, ExceptT.bindCont, StateT.run, StateT.bind, get, getThe, MonadStateOf.get, liftM, monadLift, MonadLift.monadLift, ExceptT.lift, StateT.get, throw, throwThe, MonadExceptOf.throw, pure, ExceptT.pure, StateT.pure, modify, modifyGet, MonadStateOf.modifyGet, StateT.modifyGet, StateT.map, Functor.map]

theorem Builder.invoke_class (value : String) (st : BuilderState) :
    Builder.invoke (Builder.class_ value) st =
      if idxAbove st.lastAddedItemIdx 3 then (.error orderMessage, st)
      else (.ok (), { st with classes := st.classes ++ ["." ++ value],
                              lastAddedItemIdx := some 3 }) := by
  unfold Builder.invoke Builder.class_
  split_ifs <;> simp_all [ExceptT.run, bind, ExceptT.bind, ExceptT.mk, ExceptT.bindCont, StateT.run, StateT.bind, get, getThe, MonadStateOf.get, liftM, monadLift, MonadLift.monadLift, ExceptT.lift, StateT.get, throw, throwThe, MonadExceptOf.throw, pure, ExceptT.pure, StateT.pure, modify, modifyGet, MonadStateOf.modifyGet, StateT.modifyGet, StateT.map, Functor.map]

theorem Builder.invoke_attr (value : String) (st : BuilderState) :
    Builder.invoke (Builder.attr value) st =
      if idxAbove st.lastAddedItemIdx 4 then (.error orderMessage, st)
      else (.ok (), { st with attributes := st.attributes ++ ["[" ++ value ++ "]"],
                              lastAddedItemIdx := some 4 }) := by
  unfold Builder.invoke Builder.attr
  split_ifs <;> simp_all [ExceptT.run, bind, ExceptT.bind, ExceptT.mk, ExceptT.bindCont, StateT.run, StateT.bind, get, getThe, MonadStateOf.get, liftM, monadLift, MonadLift.monadLift, ExceptT.lift, StateT.get, throw, throwThe, MonadExceptOf.throw, pure, ExceptT.pure, StateT.pure, modify, modifyGet, MonadStateOf.modifyGet, StateT.modifyGet, StateT.map, Functor.map]

theorem Builder.invoke_pseudoClass (value : String) (st : BuilderState) :
    Builder.invoke (Builder.pseudoClass value) st =
      if idxAbove st.lastAddedItemIdx 5 then (.error orderMessage, st)
      else (.ok (), { st with pseudoClasses := st.pseudoClasses ++ [":" ++ value],
                              lastAddedItemIdx := some 5 }) := by
  unfold Builder.invoke Builder.pseudoClass
  split_ifs <;> simp_all [ExceptT.run, bind, ExceptT.bind, ExceptT.mk, ExceptT.bindCont, StateT.run, StateT.bind, get, getThe, MonadStateOf.get, liftM, monadLift, MonadLift.monadLift, ExceptT.lift, StateT.get, throw, throwThe, MonadExceptOf.throw, pure, ExceptT.pure, StateT.pure, modify, modifyGet, MonadStateOf.modifyGet, StateT.modifyGet, StateT.map, Functor.map]

theorem Builder.invoke_pseudoElement (value : String) (st : BuilderState) :
    Builder.invoke (Builder.pseudoElement value) st =
      if truthyString st.pseudoElement then (.error duplicateMessage, st)
      else (.ok (), { st with pseudoElement := "::" ++ value, lastAddedItemIdx := some 6 }) := by
  unfold Builder.invoke Builder.pseudoElement
  split_ifs <;> simp_all [ExceptT.run, bind, ExceptT.bind, ExceptT.mk, ExceptT.bindCont, StateT.run, StateT.bind, get, getThe, MonadStateOf.get, liftM, monadLift, MonadLift.monadLift, ExceptT.lift, StateT.get, throw, throwThe, MonadExceptOf.throw, pure, ExceptT.pure, StateT.pure, modify, modifyGet, MonadStateOf.modifyGet, StateT.modifyGet, StateT.map, Functor.map]

theorem Builder.perform_element (value : String) (st : BuilderState) :
    Builder.perform (Builder.element value) st =
      if truthyString st.element then .error duplicateMessage
      else if truthyIdx st.lastAddedItemIdx then .error orderMessage
      else .ok { st with element := value, lastAddedItemIdx := some 1 } := by
  rw [Builder.perform, Builder.invoke_element]
  split_ifs <;> rfl

theorem Builder.perform_id (value : String) (st : BuilderState) :
    Builder.perform (Builder.id value) st =
      if truthyString st.id then .error duplicateMessage
      else if idxAbove st.lastAddedItemIdx 2 then .error orderMessage
      else .ok { st with id := "#" ++ value, lastAddedItemIdx := some 2 } := by
  rw [Builder.perform, Builder.invoke_id]
  split_ifs <;> rfl

theorem Builder.perform_class (value : String) (st : BuilderState) :
    Builder.perform (Builder.class_ value) st =
      if idxAbove st.lastAddedItemIdx 3 then .error orderMessage
      else .ok { st with classes := st.classes ++ ["." ++ value], lastAddedItemIdx := some 3 } := by
  rw [Builder.perform, Builder.invoke_class]
  split_ifs <;> rfl

theorem Builder.perform_attr (value : String) (st : BuilderState) :
    Builder.perform (Builder.attr value) st =
      if idxAbove st.lastAddedItemIdx 4 then .error orderMessage
      else .ok { st with attributes := st.attributes ++ ["[" ++ value ++ "]"],
                         lastAddedItemIdx := some 4 } := by
  rw [Builder.perform, Builder.invoke_attr]
  split_ifs <;> rfl

theorem Builder.perform_pseudoClass (value : String) (st : BuilderState) :
    Builder.perform (Builder.pseudoClass value) st =
      if idxAbove st.lastAddedItemIdx 5 then .error orderMessage
      else .ok { st with pseudoClasses := st.pseudoClasses ++ [":" ++ value],
                         lastAddedItemIdx := some 5 } := by
  rw [Builder.perform, Builder.invoke_pseudoClass]
  split_ifs <;> rfl

theorem Builder.perform_pseudoElement (value : String) (st : BuilderState) :
    Builder.perform (Builder.pseudoElement value) st =
      if truthyString st.pseudoElement then .error duplicateMessage
      else .ok { st with pseudoElement := "::" ++ value, lastAddedItemIdx := some 6 } := by
  rw [Builder.perform, Builder.invoke_pseudoElement]
  split_ifs <;> rfl

/-! ## The state as a function of the calls made: lemmas -/

theorem stringify_stateOf (cs : List Call) :
    Builder.stringify (stateOf cs) = selectorTemplate cs := rfl

theorem Method.rank_pos (m : Method) : 0 < m.rank := by
  cases m <;> decide

theorem Method.rank_le_six (m : Method) : m.rank ≤ 6 := by
  cases m <;> decide

theorem valuesOf_append (m : Method) (xs ys : List Call) :
    valuesOf m (xs ++ ys) = valuesOf m xs ++ valuesOf m ys := by
  simp [valuesOf]

theorem valuesOf_eq_nil (m : Method) (cs : List Call) :
    valuesOf m cs = [] ↔ ∀ a ∈ cs, a.method ≠ m := by
  simp [valuesOf, List.filter_eq_nil_iff]

theorem prefixed_ne_empty (p v : String) (hp : p ≠ "") : p ++ v ≠ "" := by
  intro h
  have h1 : (p ++ v).length = 0 := by rw [h]; rfl
  rw [String.length_append] at h1
  have h2 : p.length = 0 := by omega
  exact hp (String.ext (by simpa using List.length_eq_zero.mp h2))

theorem slot_eq_empty (p : String) (hp : p ≠ "") (m : Method) (cs : List Call) :
    (((valuesOf m cs).head?.map fun v => p ++ v).getD "") = "" ↔ ∀ a ∈ cs, a.method ≠ m := by
  rw [← valuesOf_eq_nil]
  cases h : valuesOf m cs with
  | nil => simp
  | cons v vs => simpa using prefixed_ne_empty p v hp

theorem getLast?_snoc_rank (xs : List Call) (l : Call) :
    ((xs ++ [l]).getLast?.map fun c => c.method.rank) = some l.method.rank := by
  simp

theorem idxAbove_last (cs : List Call) (r : Nat)
    (h : (cs.map fun c => c.method.rank).Pairwise (· ≤ ·)) :
    idxAbove (cs.getLast?.map fun c => c.method.rank) r = true ↔
      ∃ a ∈ cs, r < a.method.rank := by
  induction cs using List.reverseRecOn with
  | nil => simp [idxAbove, truthyIdx]
  | append_singleton xs l _ =>
    rw [List.map_append, List.pairwise_append] at h
    have hl : ∀ a ∈ xs, a.method.rank ≤ l.method.rank := by
      intro a ha
      exact h.2.2 _ (List.mem_map_of_mem _ ha) _ (by simp)
    have hpos := l.method.rank_pos
    rw [getLast?_snoc_rank]
    simp only [idxAbove, truthyIdx, Bool.and_eq_true, bne_iff_ne, ne_eq, decide_eq_true_eq,
      List.mem_append, List.mem_singleton]
    constructor
    · rintro ⟨_, h2⟩
      exact ⟨l, Or.inr rfl, h2⟩
    · rintro ⟨a, ha | rfl, h2⟩
      · exact ⟨by omega, lt_of_lt_of_le h2 (hl a ha)⟩
      · exact ⟨by omega, h2⟩

theorem truthyIdx_last (cs : List Call) :
    truthyIdx (cs.getLast?.map fun c => c.method.rank) = true ↔ cs ≠ [] := by
  induction cs using List.reverseRecOn with
  | nil => simp [truthyIdx]
  | append_singleton xs l _ =>
    have hpos := l.method.rank_pos
    rw [getLast?_snoc_rank]
    simp [truthyIdx]
    omega

theorem validCalls_snoc (cs : List Call) (c : Call) :
    ValidCalls (cs ++ [c]) ↔
      ValidCalls cs ∧ (∀ a ∈ cs, a.method.rank ≤ c.method.rank) ∧
        (c.method.isSingleton = true → ∀ a ∈ cs, a.method ≠ c.method) := by
  unfold ValidCalls
  rw [List.map_append, List.pairwise_append]
  simp only [List.map_cons, List.map_nil, List.pairwise_singleton, List.mem_map,
    List.mem_singleton, forall_exists_index, and_imp, forall_apply_eq_imp_iff₂, forall_eq,
    true_and, List.map_append, List.count_append]
  constructor
  · rintro ⟨⟨h1, h2⟩, h3⟩
    refine ⟨⟨h1, fun m hm => le_trans (Nat.le_add_right _ _) (h3 m hm)⟩, h2, ?_⟩
    intro hs a ha hm
    have := h3 c.method hs
    have hpos : 0 < List.count c.method (List.map Call.method cs) :=
      List.count_pos_iff.mpr (List.mem_map.mpr ⟨a, ha, hm⟩)
    simp at this
    omega
  · rintro ⟨⟨h1, h3⟩, h2, h4⟩
    refine ⟨⟨h1, h2⟩, fun m hm => ?_⟩
    by_cases hc : c.method = m
    · subst hc
      have : List.count c.method (List.map Call.method cs) = 0 := by
        rw [List.count_eq_zero]
        intro hmem
        obtain ⟨a, ha, hma⟩ := List.mem_map.mp hmem
        exact h4 hm a ha hma
      simp [this]
    · have := h3 m hm
      simp [List.count_cons, hc]
      omega

theorem perform_eq_ok_or_error (m : BuilderM Unit) (st : BuilderState) :
    (∃ st', Builder.perform m st = .ok st') ∨ ∃ e, Builder.perform m st = .error e := by
  cases h : Builder.perform m st with
  | ok st' => exact Or.inl ⟨st', rfl⟩
  | error e => exact Or.inr ⟨e, rfl⟩

/-- A call that returns on the state of the calls `cs` leaves the state of the calls
`cs ++ [c]`. -/
theorem perform_stateOf (cs : List Call) (c : Call) (st' : BuilderState)
    (h : Builder.perform (Builder.call c) (stateOf cs) = .ok st') :
    st' = stateOf (cs ++ [c]) := by
  obtain ⟨m, v⟩ := c
  cases m
  case element =>
    simp only [Builder.call, Builder.perform_element] at h
    split_ifs at h with h1 h2
    have hnil : cs = [] := by
      by_contra hne
      exact h2 ((truthyIdx_last cs).mpr hne)
    subst hnil
    injection h with h
    rw [← h]
    rfl
  case id =>
    simp only [Builder.call, Builder.perform_id] at h
    split_ifs at h with h1 h2
    have hno : valuesOf .id cs = [] := by
      rw [valuesOf_eq_nil, ← slot_eq_empty "#" (by decide)]
      simpa [truthyString, stateOf] using h1
    injection h with h
    rw [← h]
    simp only [stateOf, valuesOf_append, hno]
    simp [valuesOf, Method.rank]
  case class_ =>
    simp only [Builder.call, Builder.perform_class] at h
    split_ifs at h with h1
    injection h with h
    rw [← h]
    simp [stateOf, valuesOf_append, valuesOf, Method.rank]
  case attr =>
    simp only [Builder.call, Builder.perform_attr] at h
    split_ifs at h with h1
    injection h with h
    rw [← h]
    simp [stateOf, valuesOf_append, valuesOf, Method.rank]
  case pseudoClass =>
    simp only [Builder.call, Builder.perform_pseudoClass] at h
    split_ifs at h with h1
    injection h with h
    rw [← h]
    simp [stateOf, valuesOf_append, valuesOf, Method.rank]
  case pseudoElement =>
    simp only [Builder.call, Builder.perform_pseudoElement] at h
    split_ifs at h with h1
    have hno : valuesOf .pseudoElement cs = [] := by
      rw [valuesOf_eq_nil, ← slot_eq_empty "::" (by decide)]
      simpa [truthyString, stateOf] using h1
    injection h with h
    rw [← h]
    simp only [stateOf, valuesOf_append, hno]
    simp [valuesOf, Method.rank]

/-- On the state of a valid sequence of calls, a call throws exactly when a part of
higher rank was written before it, or it is a singleton that was written before. -/
theorem throws_stateOf_iff (cs : List Call) (c : Call) (hv : ValidCalls cs) :
    (∃ e, Builder.perform (Builder.call c) (stateOf cs) = .error e) ↔
      (∃ a ∈ cs, c.method.rank < a.method.rank) ∨
        (c.method.isSingleton = true ∧ ∃ a ∈ cs, a.method = c.method) := by
  have habove := fun r => idxAbove_last cs r hv.1
  obtain ⟨m, v⟩ := c
  cases m
  case element =>
    have hl : (∃ e, Builder.perform (Builder.call ⟨.element, v⟩) (stateOf cs) = .error e) ↔
        cs ≠ [] := by
      simp only [Builder.call, Builder.perform_element]
      constructor
      · rintro ⟨e, he⟩ rfl
        simp [stateOf, valuesOf, truthyString, truthyIdx] at he
      · intro hne
        have ht := (truthyIdx_last cs).mpr hne
        by_cases h1 : truthyString (stateOf cs).element = true
        · exact ⟨_, by rw [if_pos h1]⟩
        · refine ⟨orderMessage, ?_⟩
          rw [if_neg h1]
          exact if_pos ht
    rw [hl]
    constructor
    · intro hne
      obtain ⟨a, l, rfl⟩ := List.exists_cons_of_ne_nil hne
      obtain ⟨am, av⟩ := a
      cases am
      case element => exact Or.inr ⟨rfl, _, List.mem_cons_self _ _, rfl⟩
      all_goals
        refine Or.inl ⟨_, List.mem_cons_self _ _, ?_⟩
        simp [Method.rank]
    · rintro (⟨a, ha, _⟩ | ⟨_, a, ha, _⟩) <;> exact List.ne_nil_of_mem ha
  case id =>
    have hslot : truthyString (stateOf cs).id = true ↔ ∃ a ∈ cs, a.method = Method.id := by
      have := slot_eq_empty "#" (by decide) .id cs
      simp only [truthyString, stateOf, bne_iff_ne, ne_eq, this]
      push_neg
      rfl
    simp only [Builder.call, Builder.perform_id]
    change _ ↔ (∃ a ∈ cs, 2 < a.method.rank) ∨ (true = true ∧ ∃ a ∈ cs, a.method = Method.id)
    rw [← habove 2, ← hslot]
    by_cases h1 : truthyString (stateOf cs).id = true
    · simp [h1]
    · by_cases h2 : idxAbove (stateOf cs).lastAddedItemIdx 2 = true
      · have h2' : idxAbove (cs.getLast?.map fun c => c.method.rank) 2 = true := h2
        simp [h1, h2, h2']
      · have h2' : ¬ idxAbove (cs.getLast?.map fun c => c.method.rank) 2 = true := h2
        simp [h1, h2, h2']
  case class_ =>
    simp only [Builder.call, Builder.perform_class]
    change _ ↔ (∃ a ∈ cs, 3 < a.method.rank) ∨ (false = true ∧ ∃ a ∈ cs, a.method = Method.class_)
    rw [← habove 3]
    by_cases h2 : idxAbove (stateOf cs).lastAddedItemIdx 3 = true
    · have h2' : idxAbove (cs.getLast?.map fun c => c.method.rank) 3 = true := h2
      simp [h2, h2']
    · have h2' : ¬ idxAbove (cs.getLast?.map fun c => c.method.rank) 3 = true := h2
      simp [h2, h2']
  case attr =>
    simp only [Builder.call, Builder.perform_attr]
    change _ ↔ (∃ a ∈ cs, 4 < a.method.rank) ∨ (false = true ∧ ∃ a ∈ cs, a.method = Method.attr)
    rw [← habove 4]
    by_cases h2 : idxAbove (stateOf cs).lastAddedItemIdx 4 = true
    · have h2' : idxAbove (cs.getLast?.map fun c => c.method.rank) 4 = true := h2
      simp [h2, h2']
    · have h2' : ¬ idxAbove (cs.getLast?.map fun c => c.method.rank) 4 = true := h2
      simp [h2, h2']
  case pseudoClass =>
    simp only [Builder.call, Builder.perform_pseudoClass]
    change _ ↔ (∃ a ∈ cs, 5 < a.method.rank) ∨ (false = true ∧ ∃ a ∈ cs, a.method = Method.pseudoClass)
    rw [← habove 5]
    by_cases h2 : idxAbove (stateOf cs).lastAddedItemIdx 5 = true
    · have h2' : idxAbove (cs.getLast?.map fun c => c.method.rank) 5 = true := h2
      simp [h2, h2']
    · have h2' : ¬ idxAbove (cs.getLast?.map fun c => c.method.rank) 5 = true := h2
      simp [h2, h2']
  case pseudoElement =>
    have hslot : truthyString (stateOf cs).pseudoElement = true ↔
        ∃ a ∈ cs, a.method = Method.pseudoElement := by
      have := slot_eq_empty "::" (by decide) .pseudoElement cs
      simp only [truthyString, stateOf, bne_iff_ne, ne_eq, this]
      push_neg
      rfl
    have hno : ¬ ∃ a ∈ cs, 6 < a.method.rank := by
      rintro ⟨a, _, h6⟩
      have := a.method.rank_le_six
      omega
    simp only [Builder.call, Builder.perform_pseudoElement]
    change _ ↔ (∃ a ∈ cs, 6 < a.method.rank) ∨
      (true = true ∧ ∃ a ∈ cs, a.method = Method.pseudoElement)
    rw [← hslot]
    by_cases h1 : truthyString (stateOf cs).pseudoElement = true
    · simp [h1]
    · simp [h1, hno]

/-- The calls that all return on a fresh builder are the valid sequences, and the
state they leave is `stateOf`. -/
theorem calls_new_eq_ok_iff (cs : List Call) (st : BuilderState) :
    Builder.calls Builder.new cs = .ok st ↔ ValidCalls cs ∧ st = stateOf cs := by
  induction cs using List.reverseRecOn generalizing st with
  | nil =>
    have hv : ValidCalls [] := ⟨List.Pairwise.nil, fun m _ => by simp⟩
    constructor
    · intro h
      injection h with h
      exact ⟨hv, h.symm⟩
    · rintro ⟨_, rfl⟩
      rfl
  | append_singleton xs c ih =>
    have happ : Builder.calls Builder.new (xs ++ [c]) =
        (Builder.calls Builder.new xs).bind fun s => Builder.perform (Builder.call c) s := by
      simp only [Builder.calls, List.foldlM_append, List.foldlM_cons, List.foldlM_nil]
      cases List.foldlM (fun b c => Builder.perform (Builder.call c) b) Builder.new xs with
      | error e => rfl
      | ok s =>
        show (Builder.perform (Builder.call c) s >>= pure) = _
        rw [bind_pure]
        rfl
    rw [happ, validCalls_snoc]
    constructor
    · intro h
      cases hx : Builder.calls Builder.new xs with
      | error e => rw [hx] at h; cases h
      | ok s =>
        rw [hx] at h
        obtain ⟨hv, rfl⟩ := (ih s).mp hx
        have h' : Builder.perform (Builder.call c) (stateOf xs) = .ok st := h
        have hst := perform_stateOf xs c st h'
        have hnot : ¬ ∃ e, Builder.perform (Builder.call c) (stateOf xs) = .error e := by
          rintro ⟨e, he⟩
          rw [he] at h'
          cases h'
        rw [throws_stateOf_iff xs c hv] at hnot
        push_neg at hnot
        refine ⟨⟨hv, fun a ha => hnot.1 a ha, fun hs a ha => hnot.2 hs a ha⟩, hst⟩
    · rintro ⟨⟨hv, h1, h2⟩, rfl⟩
      rw [(ih (stateOf xs)).mpr ⟨hv, rfl⟩]
      show Builder.perform (Builder.call c) (stateOf xs) = _
      rcases perform_eq_ok_or_error (Builder.call c) (stateOf xs) with ⟨st', h⟩ | hthrow
      · rw [h, perform_stateOf xs c st' h]
      · rw [throws_stateOf_iff xs c hv] at hthrow
        rcases hthrow with ⟨a, ha, hlt⟩ | ⟨hs, a, ha, hm⟩
        · exact absurd (h1 a ha) (by omega)
        · exact absurd hm (h2 hs a ha)

theorem build_eq_calls (c : Call) (cs : List Call) :
    cssSelectorBuilder.build c cs = Builder.calls Builder.new (c :: cs) := by
  obtain ⟨m, v⟩ := c
  cases m <;> rfl

theorem perform_eq_error_iff (m : BuilderM Unit) (st : BuilderState) (e : String) :
    Builder.perform m st = .error e ↔ (Builder.invoke m st).1 = .error e := by
  unfold Builder.perform
  rcases h : Builder.invoke m st with ⟨r, st'⟩
  cases r <;> simp

/-! ## Rendering (C1) -/

/-- C1: when an entry operation of `cssSelectorBuilder` and all the calls chained on
its builder return, `stringify()` is the text of the template: the element value,
`#id`, every `.class`, every `[attribute]`, every `:pseudoClass`, `::pseudoElement`,
each list in call order, nothing in between, `""` for a singleton never set. -/
theorem stringify_build_eq_template (c : Call) (cs : List Call) (st : BuilderState)
    (h : cssSelectorBuilder.build c cs = .ok st) :
    Builder.stringify st = selectorTemplate (c :: cs) := by
  rw [build_eq_calls] at h
  obtain ⟨_, rfl⟩ := (calls_new_eq_ok_iff (c :: cs) st).mp h
  exact stringify_stateOf (c :: cs)

/-- The two examples of the docstring: `id('main').class('container').class('editable')`
gives `#main.container.editable`, and `element('a').attr('href$=".png"').pseudoClass('focus')`
gives `a[href$=".png"]:focus`. -/
theorem stringify_build_eq_template_witness :
    (cssSelectorBuilder.build ⟨.id, "main"⟩ [⟨.class_, "container"⟩, ⟨.class_, "editable"⟩]
        = .ok (stateOf [⟨.id, "main"⟩, ⟨.class_, "container"⟩, ⟨.class_, "editable"⟩]) ∧
      Builder.stringify (stateOf [⟨.id, "main"⟩, ⟨.class_, "container"⟩, ⟨.class_, "editable"⟩])
        = "#main.container.editable") ∧
    (cssSelectorBuilder.build ⟨.element, "a"⟩ [⟨.attr, "href$=\".png\""⟩, ⟨.pseudoClass, "focus"⟩]
        = .ok (stateOf [⟨.element, "a"⟩, ⟨.attr, "href$=\".png\""⟩, ⟨.pseudoClass, "focus"⟩]) ∧
      Builder.stringify
          (stateOf [⟨.element, "a"⟩, ⟨.attr, "href$=\".png\""⟩, ⟨.pseudoClass, "focus"⟩])
        = "a[href$=\".png\"]:focus") :=
  ⟨⟨rfl, (stringify_build_eq_template ⟨.id, "main"⟩
      [⟨.class_, "container"⟩, ⟨.class_, "editable"⟩] _ rfl).trans rfl⟩,
    ⟨rfl, (stringify_build_eq_template ⟨.element, "a"⟩
      [⟨.attr, "href$=\".png\""⟩, ⟨.pseudoClass, "focus"⟩] _ rfl).trans rfl⟩⟩

/-! ## When a call throws (C2) -/

/-- C2: on a state reached from a fresh builder by the calls `cs`, a call throws
exactly when an earlier call had a greater rank, or it is one of the singletons
element, id, pseudo-element and that method was called before; and a whole sequence
of calls on a fresh builder returns throughout exactly when its ranks never
decrease and each singleton occurs at most once. -/
theorem call_throws_iff :
    (∀ (cs : List Call) (st : BuilderState) (c : Call),
      Builder.calls Builder.new cs = .ok st →
        ((∃ e, (Builder.invoke (Builder.call c) st).1 = .error e) ↔
          (∃ a ∈ cs, c.method.rank < a.method.rank) ∨
            (c.method.isSingleton = true ∧ ∃ a ∈ cs, a.method = c.method))) ∧
    (∀ cs : List Call,
      (∃ st, Builder.calls Builder.new cs = .ok st) ↔
        (cs.map fun c => c.method.rank).Chain' (· ≤ ·) ∧
          ∀ m : Method, m.isSingleton = true → (cs.map Call.method).count m ≤ 1) := by
  constructor
  · intro cs st c h
    obtain ⟨hv, rfl⟩ := (calls_new_eq_ok_iff cs st).mp h
    rw [← throws_stateOf_iff cs c hv]
    simp only [perform_eq_error_iff]
  · intro cs
    rw [List.chain'_iff_pairwise]
    constructor
    · rintro ⟨st, h⟩
      exact ((calls_new_eq_ok_iff cs st).mp h).1
    · intro hv
      exact ⟨stateOf cs, (calls_new_eq_ok_iff cs _).mpr ⟨hv, rfl⟩⟩

/-- After `element('div').class('a')`, a call of `id` throws, and a class of rank 3
was written before it. -/
theorem call_throws_iff_witness :
    Builder.calls Builder.new [⟨.element, "div"⟩, ⟨.class_, "a"⟩]
        = .ok (stateOf [⟨.element, "div"⟩, ⟨.class_, "a"⟩]) ∧
      ((∃ e, (Builder.invoke (Builder.call ⟨.id, "x"⟩)
          (stateOf [⟨.element, "div"⟩, ⟨.class_, "a"⟩])).1 = .error e) ↔
        (∃ a ∈ [(⟨.element, "div"⟩ : Call), ⟨.class_, "a"⟩],
            (⟨.id, "x"⟩ : Call).method.rank < a.method.rank) ∨
          ((⟨.id, "x"⟩ : Call).method.isSingleton = true ∧
            ∃ a ∈ [(⟨.element, "div"⟩ : Call), ⟨.class_, "a"⟩],
              a.method = (⟨.id, "x"⟩ : Call).method)) :=
  ⟨rfl, call_throws_iff.1 _ _ _ rfl⟩

theorem Builder.calls_cons (st : BuilderState) (c : Call) (cs : List Call) :
    Builder.calls st (c :: cs) =
      (Builder.perform (Builder.call c) st).bind fun s => Builder.calls s cs := rfl

theorem idxAbove_eq_false (idx : Option Nat) (r : Nat) (h : ∀ n, idx = some n → n ≤ r) :
    idxAbove idx r = false := by
  cases idx with
  | none => rfl
  | some n =>
    have := h n rfl
    simp [idxAbove]
    omega

/-! ## Which error a rejected call throws (C3, C4) -/

theorem stateOf_lastAddedItemIdx_bounds (cs : List Call) (n : Nat)
    (h : (stateOf cs).lastAddedItemIdx = some n) : 1 ≤ n ∧ n ≤ 6 := by
  simp only [stateOf, Option.map_eq_some'] at h
  obtain ⟨a, _, rfl⟩ := h
  exact ⟨a.method.rank_pos, a.method.rank_le_six⟩

/-- C3 as stated fails: after `id('a').class('b')` the builder has
`lastAddedItemIdx = 3`, the rank 2 of `id` is below it, and `id('c')` throws
the duplicate message, which is not the order message. -/
theorem lower_rank_call_counterexample :
    Builder.calls Builder.new [⟨.id, "a"⟩, ⟨.class_, "b"⟩]
        = .ok (stateOf [⟨.id, "a"⟩, ⟨.class_, "b"⟩]) ∧
      (stateOf [⟨.id, "a"⟩, ⟨.class_, "b"⟩]).lastAddedItemIdx = some 3 ∧
      Method.id.rank < 3 ∧
      (Builder.invoke (Builder.call ⟨.id, "c"⟩) (stateOf [⟨.id, "a"⟩, ⟨.class_, "b"⟩])).1
        = .error duplicateMessage ∧
      duplicateMessage ≠ orderMessage :=
  ⟨rfl, rfl, by decide, rfl, by decide⟩

/-- C3, amended: on a reachable state, a call whose rank is below `lastAddedItemIdx`
throws; the message is the duplicate one when the call is a singleton whose slot
already holds a non-empty string (that guard comes first), the order one otherwise. -/
theorem lower_rank_call_fails (cs : List Call) (st : BuilderState) (c : Call) (n : Nat)
    (h : Builder.calls Builder.new cs = .ok st)
    (hn : st.lastAddedItemIdx = some n) (hlt : c.method.rank < n) :
    (Builder.invoke (Builder.call c) st).1 =
      .error (if Builder.slotFilled c.method st then duplicateMessage else orderMessage) := by
  obtain ⟨_, rfl⟩ := (calls_new_eq_ok_iff cs st).mp h
  have hb := stateOf_lastAddedItemIdx_bounds cs n hn
  have ht : truthyIdx (stateOf cs).lastAddedItemIdx = true := by
    rw [hn]
    simp [truthyIdx]
    omega
  obtain ⟨m, v⟩ := c
  cases m
  case element =>
    simp only [Builder.call, Builder.invoke_element, Builder.slotFilled]
    by_cases h1 : truthyString (stateOf cs).element = true
    · simp [h1]
    · simp [h1, ht]
  case id =>
    have ha : idxAbove (stateOf cs).lastAddedItemIdx 2 = true := by
      unfold idxAbove
      rw [ht, hn]
      simpa using hlt
    simp only [Builder.call, Builder.invoke_id, Builder.slotFilled]
    by_cases h1 : truthyString (stateOf cs).id = true
    · simp [h1]
    · simp [h1, ha]
  case class_ =>
    have ha : idxAbove (stateOf cs).lastAddedItemIdx 3 = true := by
      unfold idxAbove
      rw [ht, hn]
      simpa using hlt
    simp [Builder.call, Builder.invoke_class, Builder.slotFilled, ha]
  case attr =>
    have ha : idxAbove (stateOf cs).lastAddedItemIdx 4 = true := by
      unfold idxAbove
      rw [ht, hn]
      simpa using hlt
    simp [Builder.call, Builder.invoke_attr, Builder.slotFilled, ha]
  case pseudoClass =>
    have ha : idxAbove (stateOf cs).lastAddedItemIdx 5 = true := by
      unfold idxAbove
      rw [ht, hn]
      simpa using hlt
    simp [Builder.call, Builder.invoke_pseudoClass, Builder.slotFilled, ha]
  case pseudoElement =>
    have h6 : 6 < n := hlt
    omega

/-- The example of the claim: `element(x)` then `class(y)` then `id(z)` fails on the
third call with the order message. -/
theorem lower_rank_call_fails_witness :
    Builder.calls Builder.new [⟨.element, "x"⟩, ⟨.class_, "y"⟩]
        = .ok (stateOf [⟨.element, "x"⟩, ⟨.class_, "y"⟩]) ∧
      (Builder.invoke (Builder.call ⟨.id, "z"⟩) (stateOf [⟨.element, "x"⟩, ⟨.class_, "y"⟩])).1
        = .error orderMessage :=
  ⟨rfl, lower_rank_call_fails [⟨.element, "x"⟩, ⟨.class_, "y"⟩] _ ⟨.id, "z"⟩ 3 rfl rfl
    (by decide)⟩

/-- Calls of the repeatable methods that return leave the three singleton slots as
they were. -/
theorem repeatable_calls_keep_slots (rs : List Call)
    (hrs : ∀ c ∈ rs, c.method.isSingleton = false) (st st' : BuilderState)
    (h : Builder.calls st rs = .ok st') :
    st'.element = st.element ∧ st'.id = st.id ∧ st'.pseudoElement = st.pseudoElement := by
  induction rs generalizing st with
  | nil =>
    cases h
    exact ⟨rfl, rfl, rfl⟩
  | cons c cs ih =>
    rw [Builder.calls_cons] at h
    have hc := hrs c (List.mem_cons_self _ _)
    have hcs : ∀ a ∈ cs, a.method.isSingleton = false :=
      fun a ha => hrs a (List.mem_cons_of_mem _ ha)
    cases hp : Builder.perform (Builder.call c) st with
    | error e => rw [hp] at h; cases h
    | ok s =>
      rw [hp] at h
      obtain ⟨h1, h2, h3⟩ := ih hcs s h
      obtain ⟨m, v⟩ := c
      cases m
      case element => cases hc
      case id => cases hc
      case pseudoElement => cases hc
      case class_ =>
        simp only [Builder.call, Builder.perform_class] at hp
        split_ifs at hp
        cases hp
        exact ⟨h1, h2, h3⟩
      case attr =>
        simp only [Builder.call, Builder.perform_attr] at hp
        split_ifs at hp
        cases hp
        exact ⟨h1, h2, h3⟩
      case pseudoClass =>
        simp only [Builder.call, Builder.perform_pseudoClass] at hp
        split_ifs at hp
        cases hp
        exact ⟨h1, h2, h3⟩

/-- The part of C4 that the code keeps: after a singleton call `s(v1)` has returned,
and after any calls of repeatable methods that return, a second `s(v2)` throws the
duplicate message, for `id` and `pseudoElement` always and for `element` when `v1` is
not the empty string. -/
theorem second_singleton_call_duplicate (m : Method) (hm : m.isSingleton = true)
    (v1 v2 : String) (hv : m = .element → v1 ≠ "") (st0 st1 st2 : BuilderState)
    (rs : List Call) (hrs : ∀ c ∈ rs, c.method.isSingleton = false)
    (h1 : Builder.perform (Builder.call ⟨m, v1⟩) st0 = .ok st1)
    (h2 : Builder.calls st1 rs = .ok st2) :
    (Builder.invoke (Builder.call ⟨m, v2⟩) st2).1 = .error duplicateMessage := by
  obtain ⟨he, hi, hp⟩ := repeatable_calls_keep_slots rs hrs st1 st2 h2
  cases m
  case class_ => cases hm
  case attr => cases hm
  case pseudoClass => cases hm
  case element =>
    simp only [Builder.call, Builder.perform_element] at h1
    split_ifs at h1
    cases h1
    have ht : truthyString st2.element = true := by
      rw [he]
      simpa [truthyString] using hv rfl
    simp [Builder.call, Builder.invoke_element, ht]
  case id =>
    simp only [Builder.call, Builder.perform_id] at h1
    split_ifs at h1
    cases h1
    have ht : truthyString st2.id = true := by
      rw [hi]
      simpa [truthyString] using prefixed_ne_empty "#" v1 (by decide)
    simp [Builder.call, Builder.invoke_id, ht]
  case pseudoElement =>
    simp only [Builder.call, Builder.perform_pseudoElement] at h1
    split_ifs at h1
    cases h1
    have ht : truthyString st2.pseudoElement = true := by
      rw [hp]
      simpa [truthyString] using prefixed_ne_empty "::" v1 (by decide)
    simp [Builder.call, Builder.invoke_pseudoElement, ht]

/-- C4 at its failing input: after `element('')` has returned, `element('x')` throws
the order message, not the duplicate one; the same two calls of `id` and of
`pseudoElement` throw the duplicate message. -/
theorem second_element_after_empty :
    Builder.calls Builder.new [⟨.element, ""⟩] = .ok (stateOf [⟨.element, ""⟩]) ∧
      (Builder.invoke (Builder.call ⟨.element, "x"⟩) (stateOf [⟨.element, ""⟩])).1
        = .error orderMessage ∧
      orderMessage ≠ duplicateMessage ∧
      Builder.calls Builder.new [⟨.id, ""⟩, ⟨.id, "x"⟩] = .error duplicateMessage ∧
      Builder.calls Builder.new [⟨.pseudoElement, ""⟩, ⟨.pseudoElement, "x"⟩]
        = .error duplicateMessage :=
  ⟨rfl, rfl, by decide, rfl, rfl⟩

/-! ## A call that throws writes nothing (C5) -/

theorem invoke_error_keeps_state (st : BuilderState) (c : Call) (e : String)
    (h : (Builder.invoke (Builder.call c) st).1 = .error e) :
    (Builder.invoke (Builder.call c) st).2 = st := by
  obtain ⟨m, v⟩ := c
  cases m
  case element =>
    simp only [Builder.call, Builder.invoke_element] at h ⊢
    split_ifs at h ⊢
    all_goals rfl
  case id =>
    simp only [Builder.call, Builder.invoke_id] at h ⊢
    split_ifs at h ⊢
    all_goals rfl
  case class_ =>
    simp only [Builder.call, Builder.invoke_class] at h ⊢
    split_ifs at h ⊢
    all_goals rfl
  case attr =>
    simp only [Builder.call, Builder.invoke_attr] at h ⊢
    split_ifs at h ⊢
    all_goals rfl
  case pseudoClass =>
    simp only [Builder.call, Builder.invoke_pseudoClass] at h ⊢
    split_ifs at h ⊢
    all_goals rfl
  case pseudoElement =>
    simp only [Builder.call, Builder.invoke_pseudoElement] at h ⊢
    split_ifs at h ⊢
    all_goals rfl

/-- C5: a call that throws, with either message, leaves every field of the state as
it was, so `stringify()` returns the same text after it as before. -/
theorem failed_call_keeps_state (st : BuilderState) (c : Call) (e : String)
    (h : (Builder.invoke (Builder.call c) st).1 = .error e) :
    (Builder.invoke (Builder.call c) st).2 = st ∧
      Builder.stringify (Builder.invoke (Builder.call c) st).2 = Builder.stringify st := by
  have key := invoke_error_keeps_state st c e h
  exact ⟨key, by rw [key]⟩

/-- After `id('main').attr('x')`, the call `class('c')` throws and the state, with
its text `#main[x]`, is unchanged. -/
theorem failed_call_keeps_state_witness :
    (Builder.invoke (Builder.call ⟨.class_, "c"⟩) (stateOf [⟨.id, "main"⟩, ⟨.attr, "x"⟩])).1
        = .error orderMessage ∧
      (Builder.invoke (Builder.call ⟨.class_, "c"⟩) (stateOf [⟨.id, "main"⟩, ⟨.attr, "x"⟩])).2
        = stateOf [⟨.id, "main"⟩, ⟨.attr, "x"⟩] ∧
      Builder.stringify
          (Builder.invoke (Builder.call ⟨.class_, "c"⟩) (stateOf [⟨.id, "main"⟩, ⟨.attr, "x"⟩])).2
        = "#main[x]" :=
  ⟨rfl, (failed_call_keeps_state (stateOf [⟨.id, "main"⟩, ⟨.attr, "x"⟩]) ⟨.class_, "c"⟩
      orderMessage rfl).1,
    (failed_call_keeps_state (stateOf [⟨.id, "main"⟩, ⟨.attr, "x"⟩]) ⟨.class_, "c"⟩
      orderMessage rfl).2.trans rfl⟩

/-! ## Combined selectors (C6) -/

/-- C6: `combine(left, c, right).stringify()` is `left.stringify()`, a blank, `c`, a
blank, `right.stringify()`, for builders and combined selectors alike; so
`combine(combine(A,'+',B), '~', combine(C,' ',D))` renders as
`A + B ~ C   D` over the four texts, and the example of the docstring renders as
the docstring says. -/
theorem combine_stringify :
    (∀ (left right : Selector) (c : String),
      (cssSelectorBuilder.combine left c right).stringify
        = left.stringify ++ " " ++ c ++ " " ++ right.stringify) ∧
    (∀ A B C D : Selector,
      (cssSelectorBuilder.combine (cssSelectorBuilder.combine A "+" B) "~"
          (cssSelectorBuilder.combine C " " D)).stringify
        = A.stringify ++ " + " ++ B.stringify ++ " ~ " ++ C.stringify ++ "   " ++ D.stringify) ∧
    docstringCombineExample.map Selector.stringify = .ok
      "div#main.container.draggable + table#data ~ tr:nth-of-type(even)   td:nth-of-type(even)" := by
  refine ⟨fun _ _ _ => rfl, fun A B C D => ?_, rfl⟩
  simp only [cssSelectorBuilder.combine, Selector.stringify, String.append_assoc]
  rfl

/-! ## Repeated calls of a repeatable method (C7) -/

theorem calls_class_repeat (vs : List String) (st : BuilderState)
    (h : ∀ n, st.lastAddedItemIdx = some n → n ≤ 3) (hne : vs ≠ []) :
    Builder.calls st (vs.map fun v => ⟨.class_, v⟩) =
      .ok { st with classes := st.classes ++ vs.map (fun v => "." ++ v),
                    lastAddedItemIdx := some 3 } := by
  induction vs generalizing st with
  | nil => exact absurd rfl hne
  | cons v vs ih =>
    rw [List.map_cons, Builder.calls_cons]
    simp only [Builder.call, Builder.perform_class, idxAbove_eq_false _ 3 h]
    by_cases hvs : vs = []
    · subst hvs
      rfl
    · have := ih { st with classes := st.classes ++ ["." ++ v], lastAddedItemIdx := some 3 }
        (fun n hn => by cases hn; exact le_refl 3) hvs
      simpa [Except.bind] using this

theorem calls_attr_repeat (vs : List String) (st : BuilderState)
    (h : ∀ n, st.lastAddedItemIdx = some n → n ≤ 4) (hne : vs ≠ []) :
    Builder.calls st (vs.map fun v => ⟨.attr, v⟩) =
      .ok { st with attributes := st.attributes ++ vs.map (fun v => "[" ++ v ++ "]"),
                    lastAddedItemIdx := some 4 } := by
  induction vs generalizing st with
  | nil => exact absurd rfl hne
  | cons v vs ih =>
    rw [List.map_cons, Builder.calls_cons]
    simp only [Builder.call, Builder.perform_attr, idxAbove_eq_false _ 4 h]
    by_cases hvs : vs = []
    · subst hvs
      rfl
    · have := ih { st with attributes := st.attributes ++ ["[" ++ v ++ "]"],
                           lastAddedItemIdx := some 4 }
        (fun n hn => by cases hn; exact le_refl 4) hvs
      simpa [Except.bind] using this

theorem calls_pseudoClass_repeat (vs : List String) (st : BuilderState)
    (h : ∀ n, st.lastAddedItemIdx = some n → n ≤ 5) (hne : vs ≠ []) :
    Builder.calls st (vs.map fun v => ⟨.pseudoClass, v⟩) =
      .ok { st with pseudoClasses := st.pseudoClasses ++ vs.map (fun v => ":" ++ v),
                    lastAddedItemIdx := some 5 } := by
  induction vs generalizing st with
  | nil => exact absurd rfl hne
  | cons v vs ih =>
    rw [List.map_cons, Builder.calls_cons]
    simp only [Builder.call, Builder.perform_pseudoClass, idxAbove_eq_false _ 5 h]
    by_cases hvs : vs = []
    · subst hvs
      rfl
    · have := ih { st with pseudoClasses := st.pseudoClasses ++ [":" ++ v],
                           lastAddedItemIdx := some 5 }
        (fun n hn => by cases hn; exact le_refl 5) hvs
      simpa [Except.bind] using this

/-- C7: on a state whose `lastAddedItemIdx` is unset or at most the rank of `class`
(3), `attr` (4) or `pseudoClass` (5), calling that method once for each value of a
non-empty list returns every time; the values, prefixed, are appended in call order
to the end of that method's array, the other parts stay as they were, and
`lastAddedItemIdx` becomes the rank. -/
theorem repeatable_calls_append (st : BuilderState) (vs : List String) (hne : vs ≠ []) :
    ((∀ n, st.lastAddedItemIdx = some n → n ≤ Method.class_.rank) →
      Builder.calls st (vs.map fun v => ⟨.class_, v⟩) =
        .ok { st with classes := st.classes ++ vs.map (fun v => "." ++ v),
                      lastAddedItemIdx := some Method.class_.rank }) ∧
    ((∀ n, st.lastAddedItemIdx = some n → n ≤ Method.attr.rank) →
      Builder.calls st (vs.map fun v => ⟨.attr, v⟩) =
        .ok { st with attributes := st.attributes ++ vs.map (fun v => "[" ++ v ++ "]"),
                      lastAddedItemIdx := some Method.attr.rank }) ∧
    ((∀ n, st.lastAddedItemIdx = some n → n ≤ Method.pseudoClass.rank) →
      Builder.calls st (vs.map fun v => ⟨.pseudoClass, v⟩) =
        .ok { st with pseudoClasses := st.pseudoClasses ++ vs.map (fun v => ":" ++ v),
                      lastAddedItemIdx := some Method.pseudoClass.rank }) :=
  ⟨fun h => calls_class_repeat vs st h hne, fun h => calls_attr_repeat vs st h hne,
    fun h => calls_pseudoClass_repeat vs st h hne⟩

/-- After `element('a').id('b')`, three calls of `class` in a row return and the
builder renders `a#b.c1.c2.c3`. -/
theorem repeatable_calls_append_witness :
    ["c1", "c2", "c3"] ≠ [] ∧
      (∀ n, (stateOf [⟨.element, "a"⟩, ⟨.id, "b"⟩]).lastAddedItemIdx = some n → n ≤ 3) ∧
      (Builder.calls (stateOf [⟨.element, "a"⟩, ⟨.id, "b"⟩])
          (["c1", "c2", "c3"].map fun v => ⟨.class_, v⟩)).map Builder.stringify
        = .ok "a#b.c1.c2.c3" :=
  ⟨by decide, fun n hn => by cases hn; decide,
    by
      rw [(repeatable_calls_append (stateOf [⟨.element, "a"⟩, ⟨.id, "b"⟩]) ["c1", "c2", "c3"]
        (by decide)).1 (fun n hn => by cases hn; decide)]
      rfl⟩

/-! ## The promise helpers (C8, C9, C10) -/

/-- C8: `willYouMarryMe(true)` is fulfilled with `Hooray!!! She said "Yes"!`,
`willYouMarryMe(false)` with `Oh no, she said "No".`, and `willYouMarryMe()` is
rejected with an `Error` whose message is `Wrong parameter is passed! Ask her again.`. -/
theorem willYouMarryMe_answers :
    willYouMarryMe (.boolean true) = .fulfilled (.string "Hooray!!! She said \"Yes\"!") ∧
      willYouMarryMe (.boolean false) = .fulfilled (.string "Oh no, she said \"No\".") ∧
      willYouMarryMe .undefined
        = .rejected (.error "Wrong parameter is passed! Ask her again.") :=
  ⟨rfl, rfl, rfl⟩

/-- C9 at its failing inputs: `willYouMarryMe(null)`, `willYouMarryMe(0)` and
`willYouMarryMe('')` are fulfilled with the negative answer, `willYouMarryMe(1)` and
`willYouMarryMe('yes')` with the positive one; none of them is rejected. -/
theorem willYouMarryMe_non_boolean :
    willYouMarryMe .null = .fulfilled (.string "Oh no, she said \"No\".") ∧
      willYouMarryMe (.number 0) = .fulfilled (.string "Oh no, she said \"No\".") ∧
      willYouMarryMe (.string "") = .fulfilled (.string "Oh no, she said \"No\".") ∧
      willYouMarryMe (.number 1) = .fulfilled (.string "Hooray!!! She said \"Yes\"!") ∧
      willYouMarryMe (.string "yes") = .fulfilled (.string "Hooray!!! She said \"Yes\"!") :=
  ⟨rfl, rfl, rfl, rfl, rfl⟩

theorem allSettled_fulfilled_values (array : List Promise) :
    ((Promise.allSettled array).filter
        fun obj => (obj.get "status").strictEqString "fulfilled").map (fun el => el.get "value")
      = array.filterMap Promise.value? := by
  induction array with
  | nil => rfl
  | cons p ps ih =>
    cases p with
    | fulfilled value =>
      have hs : ((JSValue.object [("status", .string "fulfilled"), ("value", value)]).get
          "status").strictEqString "fulfilled" = true := rfl
      have hv : (JSValue.object [("status", .string "fulfilled"), ("value", value)]).get
          "value" = value := rfl
      show ((JSValue.object [("status", .string "fulfilled"), ("value", value)]
          :: Promise.allSettled ps).filter _).map _ = value :: ps.filterMap Promise.value?
      simp only [List.filter_cons, hs, if_true, List.map_cons, hv, ih]
    | rejected reason =>
      have hs : ((JSValue.object [("status", .string "rejected"), ("reason", reason)]).get
          "status").strictEqString "fulfilled" = false := rfl
      show ((JSValue.object [("status", .string "rejected"), ("reason", reason)]
          :: Promise.allSettled ps).filter _).map _ = ps.filterMap Promise.value?
      simp only [List.filter_cons, hs, Bool.false_eq_true, if_false, ih]

/-- C10: `processAllPromises` is always fulfilled, with the array of the values of
the fulfilled input promises in input order; its length is the number of fulfilled
inputs. With three inputs of which the second rejects, it is the two-element array of
the first and the third value. -/
theorem processAllPromises_fulfilled_values :
    (∀ array : List Promise,
      processAllPromises array = .fulfilled (.array (array.filterMap Promise.value?)) ∧
        (array.filterMap Promise.value?).length = array.countP Promise.isFulfilled) ∧
    (∀ v1 e v3 : JSValue,
      processAllPromises [.fulfilled v1, .rejected e, .fulfilled v3]
        = .fulfilled (.array [v1, v3])) := by
  refine ⟨fun array => ⟨?_, ?_⟩, fun v1 e v3 => rfl⟩
  · unfold processAllPromises
    simp only [allSettled_fulfilled_values]
    rfl
  · induction array with
    | nil => rfl
    | cons p ps ih =>
      cases p with
      | fulfilled value =>
        simp [Promise.value?, Promise.isFulfilled, List.countP_cons, ih]
      | rejected reason =>
        simp [Promise.value?, Promise.isFulfilled, List.countP_cons, ih]

/-! ## The helper `chainPromises` (C11, C20) -/

theorem foldl_resumed (ps : List TimedPromise) (acc : List JSValue) :
    ps.foldl (fun acc prom => chainPromises.resumed acc prom.outcome) acc
      = acc ++ ps.filterMap fun prom => prom.outcome.value? := by
  induction ps generalizing acc with
  | nil => simp
  | cons p ps ih =>
    rw [List.foldl_cons, ih]
    cases h : p.outcome with
    | fulfilled value => simp [chainPromises.resumed, Promise.value?, h]
    | rejected reason => simp [chainPromises.resumed, Promise.value?, h]

/-- The result of `chainPromises` in terms of the promises already settled at the
call: `reduce` over their fulfilled values, in array order. -/
theorem chainPromises_eq (array : List TimedPromise) (action : Action) :
    chainPromises array action =
      match reduce ((array.filter fun prom => prom.settledAt = 0).filterMap
          fun prom => prom.outcome.value?) action with
      | .error e => .rejected e
      | .ok result => .fulfilled result := by
  unfold chainPromises
  simp only [foldl_resumed, List.nil_append]
  rfl

/-- The part of C11 that the code keeps: when every promise of the array is already
settled at the call and `v1, ..., vn` (`n ≥ 1`) are the fulfilled values in array
order, the result is fulfilled with the left fold of an action that never throws. -/
theorem chainPromises_all_settled (array : List TimedPromise) (f : JSValue → JSValue → JSValue)
    (hall : ∀ p ∈ array, p.settledAt = 0) (v1 : JSValue) (vs : List JSValue)
    (hvals : (array.filterMap fun prom => prom.outcome.value?) = v1 :: vs) :
    chainPromises array (fun a b => .ok (f a b)) = .fulfilled (vs.foldl f v1) := by
  have hfilter : (array.filter fun prom => prom.settledAt = 0) = array := by
    rw [List.filter_eq_self]
    intro p hp
    simpa using hall p hp
  have hfold : ∀ (l : List JSValue) (a : JSValue),
      l.foldlM (fun a b => (Except.ok (f a b) : Except JSValue JSValue)) a
        = .ok (l.foldl f a) := by
    intro l
    induction l with
    | nil => intro a; rfl
    | cons b l ih => intro a; exact ih (f a b)
  rw [chainPromises_eq, hfilter, hvals]
  simp only [reduce, hfold]

/-- C11 at its failing inputs. With `[Promise.resolve(1), p]`, `p` a promise still
pending at the call that is later fulfilled with 2, and `(a, b) => a + b`, the
result is fulfilled with 1, not with 3; with `p` before the settled promise it is 1
again; the example of the docstring, three settled promises, gives 6. -/
theorem chainPromises_pending_input :
    chainPromises [⟨0, .fulfilled (.number 1)⟩, ⟨500, .fulfilled (.number 2)⟩] sumAction
        = .fulfilled (.number 1) ∧
      chainPromises [⟨500, .fulfilled (.number 2)⟩, ⟨0, .fulfilled (.number 1)⟩] sumAction
        = .fulfilled (.number 1) ∧
      chainPromises [⟨0, .fulfilled (.number 1)⟩, ⟨0, .fulfilled (.number 2)⟩,
          ⟨0, .fulfilled (.number 3)⟩] sumAction
        = .fulfilled (.number 6) :=
  ⟨rfl, rfl, rfl⟩

/-- The part of C20 that the code keeps: when no promise of the array is fulfilled
(the empty array too), the returned promise is rejected with the `TypeError` of
`reduce`, whatever the action and whenever the promises settle; and when exactly one
promise is fulfilled, with `v`, and it is already settled at the call, the result is
fulfilled with `v` whatever the action, one that always throws too. -/
theorem chainPromises_no_or_one_value (array : List TimedPromise) (action : Action) :
    ((array.filterMap fun prom => prom.outcome.value?) = [] →
      chainPromises array action
        = .rejected (.error "Reduce of empty array with no initial value")) ∧
    (∀ v, ((array.filter fun prom => prom.settledAt = 0).filterMap
        fun prom => prom.outcome.value?) = [v] →
      chainPromises array action = .fulfilled v) := by
  constructor
  · intro h
    have h0 : ((array.filter fun prom => prom.settledAt = 0).filterMap
        fun prom => prom.outcome.value?) = [] := by
      rw [List.filterMap_eq_nil_iff] at h ⊢
      intro p hp
      exact h p (List.mem_of_mem_filter hp)
    rw [chainPromises_eq, h0]
    rfl
  · intro v h
    rw [chainPromises_eq, h]
    rfl

/-- C20 at its failing input. The only promise of the array is still pending at the
call and is later fulfilled with 5: the returned promise is rejected with the
`TypeError` of `reduce`, not fulfilled with 5. The same promise, already settled, gives
5, also with an action that always throws. -/
theorem chainPromises_single_pending :
    chainPromises [⟨100, .fulfilled (.number 5)⟩] sumAction
        = .rejected (.error "Reduce of empty array with no initial value") ∧
      chainPromises [⟨0, .rejected (.error "no")⟩, ⟨100, .fulfilled (.number 5)⟩] sumAction
        = .rejected (.error "Reduce of empty array with no initial value") ∧
      chainPromises [⟨0, .fulfilled (.number 5)⟩] (fun _ _ => .error (.error "called"))
        = .fulfilled (.number 5) :=
  ⟨rfl, rfl, rfl⟩

/-! ## The helper `getFastestPromise` (C12) -/

/-- The race is settled by the first promise of the array that is already settled at
the call. -/
theorem Promise.race_settled_before (before after : List RacingPromise) (p : RacingPromise)
    (hp : p.settledAt ≤ 0) (hb : ∀ q ∈ before, 0 < q.settledAt) :
    Promise.race (before ++ p :: after) = .settled p := by
  have hnone : before.find? (fun q => decide (q.settledAt ≤ 0)) = none := by
    rw [List.find?_eq_none]
    intro q hq
    have := hb q hq
    simp only [decide_eq_true_eq]
    omega
  have hfind : (before ++ p :: after).find? (fun q => decide (q.settledAt ≤ 0)) = some p := by
    rw [List.find?_append, hnone, List.find?_cons_of_pos _ (by simpa using hp)]
    rfl
  unfold Promise.race
  rw [hfind]

/-- When every promise is still pending at the call, the race is settled by the one
that settles strictly before all the others. -/
theorem Promise.race_settled_first (before after : List RacingPromise) (p : RacingPromise)
    (hp : 0 < p.settledAt) (hb : ∀ q ∈ before, p.settledAt < q.settledAt)
    (ha : ∀ q ∈ after, p.settledAt < q.settledAt) :
    Promise.race (before ++ p :: after) = .settled p := by
  have hmem : p ∈ before ++ p :: after := by simp
  have hfind : (before ++ p :: after).find? (fun q => decide (q.settledAt ≤ 0)) = none := by
    rw [List.find?_eq_none]
    intro q hq
    simp only [decide_eq_true_eq]
    rcases List.mem_append.mp hq with h | h
    · have := hb q h
      omega
    · rcases List.mem_cons.mp h with h | h
      · rw [h]
        omega
      · have := ha q h
        omega
  have hself : ((before ++ p :: after).all fun q => decide (p.settledAt ≤ q.settledAt))
      = true := by
    rw [List.all_eq_true]
    intro q hq
    simp only [decide_eq_true_eq]
    rcases List.mem_append.mp hq with h | h
    · exact le_of_lt (hb q h)
    · rcases List.mem_cons.mp h with h | h
      · rw [h]
      · exact le_of_lt (ha q h)
  have hother : ∀ r : RacingPromise, p.settledAt < r.settledAt →
      ¬ ((before ++ p :: after).all fun q => decide (r.settledAt ≤ q.settledAt)) = true := by
    intro r hr hall
    rw [List.all_eq_true] at hall
    have := hall p hmem
    simp only [decide_eq_true_eq] at this
    omega
  have hfilter : (before ++ p :: after).filter
      (fun r => (before ++ p :: after).all fun q => decide (r.settledAt ≤ q.settledAt))
        = [p] := by
    rw [List.filter_append]
    have h1 : before.filter
        (fun r => (before ++ p :: after).all fun q => decide (r.settledAt ≤ q.settledAt))
          = [] := by
      rw [List.filter_eq_nil_iff]
      exact fun r hr => hother r (hb r hr)
    have h2 : after.filter
        (fun r => (before ++ p :: after).all fun q => decide (r.settledAt ≤ q.settledAt))
          = [] := by
      rw [List.filter_eq_nil_iff]
      exact fun r hr => hother r (ha r hr)
    rw [h1, List.nil_append]
    simp only [List.filter_cons, hself, if_true, h2]
  unfold Promise.race
  rw [hfind]
  simp only [hfilter]

/-- C12 as stated fails: of two promises already settled at the call, the second of
the array settled first (instant -2, before -1) and is fulfilled with `'b'`, but the
returned promise is fulfilled with `['a']`, the value of the first of the array. -/
theorem getFastestPromise_order_counterexample :
    (-2 : Int) < -1 ∧
      getFastestPromise [⟨-1, .fulfilled (.string "a")⟩, ⟨-2, .fulfilled (.string "b")⟩]
        = .settled (.fulfilled (.array [.string "a"])) ∧
      (Raced.settled (Promise.fulfilled (.array [.string "a"]))
        ≠ .settled (.fulfilled (.array [.string "b"]))) :=
  ⟨by decide, rfl, by simp⟩

/-- C12, amended: in a non-empty array `before ++ p :: after`, let `p` be the first
promise of the array already settled at the call or, when every promise is still
pending at the call, the promise that settles strictly before all the others. Then
`getFastestPromise` is fulfilled with the one-element array `[v]` when `p` is fulfilled
with `v`, and rejected with `e` when `p` is rejected with `e`. -/
theorem getFastestPromise_winner (before after : List RacingPromise) (p : RacingPromise)
    (hwin : (p.settledAt ≤ 0 ∧ ∀ q ∈ before, 0 < q.settledAt) ∨
      (0 < p.settledAt ∧ (∀ q ∈ before, p.settledAt < q.settledAt) ∧
        ∀ q ∈ after, p.settledAt < q.settledAt)) :
    (∀ v, p.outcome = .fulfilled v →
      getFastestPromise (before ++ p :: after) = .settled (.fulfilled (.array [v]))) ∧
    (∀ e, p.outcome = .rejected e →
      getFastestPromise (before ++ p :: after) = .settled (.rejected e)) := by
  have hr : Promise.race (before ++ p :: after) = .settled p := by
    rcases hwin with ⟨hp, hb⟩ | ⟨hp, hb, ha⟩
    · exact Promise.race_settled_before before after p hp hb
    · exact Promise.race_settled_first before after p hp hb ha
  constructor
  · intro v hv
    simp only [getFastestPromise, hr, hv]
    rfl
  · intro e he
    simp only [getFastestPromise, hr, he]

/-- The example of the docstring: `[Promise.resolve('first'), p]` with `p` fulfilled
with `'second'` after 500 ms gives `['first']`; and of two promises still pending at
the call, the one rejected after 10 ms settles the result before the one fulfilled
after 20 ms. -/
theorem getFastestPromise_winner_witness :
    getFastestPromise
        ([] ++ (⟨0, .fulfilled (.string "first")⟩ : RacingPromise)
          :: [⟨500, .fulfilled (.string "second")⟩])
        = .settled (.fulfilled (.array [.string "first"])) ∧
      getFastestPromise
        ([⟨20, .fulfilled (.string "slow")⟩] ++ (⟨10, .rejected (.error "fast")⟩ : RacingPromise)
          :: [])
        = .settled (.rejected (.error "fast")) :=
  ⟨(getFastestPromise_winner [] [⟨500, .fulfilled (.string "second")⟩]
      ⟨0, .fulfilled (.string "first")⟩ (Or.inl ⟨by decide, by simp⟩)).1 _ rfl,
    (getFastestPromise_winner [⟨20, .fulfilled (.string "slow")⟩] []
      ⟨10, .rejected (.error "fast")⟩ (Or.inr ⟨by decide, by simp, by simp⟩)).2 _ rfl⟩

/-- Two promises still pending at the call with the same instant: the instants do not
tell which settles first, and the model leaves the result open. -/
theorem getFastestPromise_same_instant :
    getFastestPromise [⟨50, .fulfilled (.string "a")⟩, ⟨50, .fulfilled (.string "b")⟩]
      = .tie := rfl

/-! ## Rectangle (C13) -/

theorem Double.roundNat_eq_self (a : Nat) (h : a ≤ 2 ^ 53) : Double.roundNat a = a := by
  rcases Nat.lt_or_eq_of_le h with hlt | heq
  · have hs : Double.droppedBits a a = 0 := by
      cases a with
      | zero => rfl
      | succ n =>
        have h53 : (2 : Nat) ^ 53 = 9007199254740992 := by norm_num
        rw [h53] at hlt
        simp only [Double.droppedBits, h53, if_pos hlt]
    simp [Double.roundNat, hs, Nat.mod_one]
  · subst heq
    decide

/-- A whole number of at most `2 ^ 53` in absolute value is a double: rounding leaves
it as it is. -/
theorem Double.ofInt_eq_self (n : Int) (h : |n| ≤ 2 ^ 53) : Double.ofInt n = n := by
  have hnat : n.natAbs ≤ 2 ^ 53 := by
    have : (n.natAbs : Int) ≤ 2 ^ 53 := by
      rw [← Int.abs_eq_natAbs]
      exact h
    exact_mod_cast this
  unfold Double.ofInt
  rw [Double.roundNat_eq_self _ hnat]
  split_ifs with hneg
  · omega
  · omega

/-- C13 as stated fails: `new Rectangle(94906267, 94906267).getArea()` returns
9007199515875288, the double nearest to the product, and not the product
9007199515875289. -/
theorem rectangle_getArea_counterexample :
    (Rectangle.getArea.run (Rectangle.new 94906267 94906267)).1 = 9007199515875288 ∧
      (94906267 : Int) * 94906267 = 9007199515875289 ∧
      (9007199515875288 : Int) ≠ 9007199515875289 :=
  ⟨rfl, by decide, by decide⟩

/-- C13, amended: for whole numbers `w` and `h` of at most `2 ^ 53` in absolute value,
`new Rectangle(w, h)` has `width = w` and `height = h`; the product `w * h` stays
within `2 ^ 106`, inside the range of doubles; `getArea()` returns the double nearest
to `w * h`, which is `w * h` itself whenever `w * h` is at most `2 ^ 53` in absolute
value, 200 for `Rectangle(10, 20)`; and it leaves the object, so its width and height,
as it was. -/
theorem rectangle_getArea (w h : Int) (hw : |w| ≤ 2 ^ 53) (hh : |h| ≤ 2 ^ 53) :
    (Rectangle.new w h).width = w ∧ (Rectangle.new w h).height = h ∧
      |w * h| ≤ 2 ^ 106 ∧
      (Rectangle.getArea.run (Rectangle.new w h)).1 = Double.ofInt (w * h) ∧
      (|w * h| ≤ 2 ^ 53 → (Rectangle.getArea.run (Rectangle.new w h)).1 = w * h) ∧
      (Rectangle.getArea.run (Rectangle.new 10 20)).1 = 200 ∧
      ∀ r : Rectangle, (Rectangle.getArea.run r).2 = r := by
  have hrange : |w * h| ≤ 2 ^ 106 := by
    rw [abs_mul]
    calc |w| * |h| ≤ 2 ^ 53 * 2 ^ 53 := mul_le_mul hw hh (abs_nonneg h) (by norm_num)
      _ = 2 ^ 106 := by norm_num
  exact ⟨rfl, rfl, hrange, rfl, fun hp => Double.ofInt_eq_self (w * h) hp, rfl, fun _ => rfl⟩

/-- The example of the docstring: `new Rectangle(10, 20)` has width 10, height 20 and
area 200, the exact product. -/
theorem rectangle_getArea_witness :
    |(10 : Int)| ≤ 2 ^ 53 ∧ |(20 : Int)| ≤ 2 ^ 53 ∧ |(10 : Int) * 20| ≤ 2 ^ 53 ∧
      (Rectangle.new 10 20).width = 10 ∧ (Rectangle.new 10 20).height = 20 ∧
      (Rectangle.getArea.run (Rectangle.new 10 20)).1 = 10 * 20 :=
  ⟨by norm_num, by norm_num, by norm_num,
    (rectangle_getArea 10 20 (by norm_num) (by norm_num)).1,
    (rectangle_getArea 10 20 (by norm_num) (by norm_num)).2.1,
    (rectangle_getArea 10 20 (by norm_num) (by norm_num)).2.2.2.2.1 (by norm_num)⟩

/-! ## The field `lastAddedItemIdx` (C15) -/

theorem Builder.calls_snoc (st : BuilderState) (cs : List Call) (c : Call) :
    Builder.calls st (cs ++ [c]) =
      (Builder.calls st cs).bind fun s => Builder.perform (Builder.call c) s := by
  simp only [Builder.calls, List.foldlM_append, List.foldlM_cons, List.foldlM_nil]
  cases List.foldlM (fun b c => Builder.perform (Builder.call c) b) st cs with
  | error e => rfl
  | ok s =>
    show (Builder.perform (Builder.call c) s >>= pure) = _
    rw [bind_pure]
    rfl

theorem perform_lastAddedItemIdx (st : BuilderState) (c : Call) (st' : BuilderState)
    (h : Builder.perform (Builder.call c) st = .ok st') :
    st'.lastAddedItemIdx = some c.method.rank := by
  obtain ⟨m, v⟩ := c
  cases m
  case element =>
    simp only [Builder.call, Builder.perform_element] at h
    split_ifs at h
    cases h
    rfl
  case id =>
    simp only [Builder.call, Builder.perform_id] at h
    split_ifs at h
    cases h
    rfl
  case class_ =>
    simp only [Builder.call, Builder.perform_class] at h
    split_ifs at h
    cases h
    rfl
  case attr =>
    simp only [Builder.call, Builder.perform_attr] at h
    split_ifs at h
    cases h
    rfl
  case pseudoClass =>
    simp only [Builder.call, Builder.perform_pseudoClass] at h
    split_ifs at h
    cases h
    rfl
  case pseudoElement =>
    simp only [Builder.call, Builder.perform_pseudoElement] at h
    split_ifs at h
    cases h
    rfl

theorem rank_le_last (cs : List Call) (l : Call)
    (hs : (cs.map fun c => c.method.rank).Pairwise (· ≤ ·)) (hl : cs.getLast? = some l) :
    l ∈ cs ∧ ∀ a ∈ cs, a.method.rank ≤ l.method.rank := by
  induction cs using List.reverseRecOn with
  | nil => cases hl
  | append_singleton xs x _ =>
    have hx : x = l := by simpa using hl
    subst hx
    rw [List.map_append, List.pairwise_append] at hs
    refine ⟨by simp, fun a ha => ?_⟩
    rcases List.mem_append.mp ha with ha | ha
    · exact hs.2.2 _ (List.mem_map_of_mem _ ha) _ (by simp)
    · have : a = x := by simpa using ha
      rw [this]

/-- C15: a call that returns sets `lastAddedItemIdx` to its own rank; on a reachable
state the field never decreases by such a call; and after the calls `cs` have all
returned on a fresh builder the field is `null` exactly when `cs` is empty, and is
otherwise the greatest rank among `cs`. -/
theorem lastAddedItemIdx_is_max_rank :
    (∀ (st : BuilderState) (c : Call) (st' : BuilderState),
      Builder.perform (Builder.call c) st = .ok st' →
        st'.lastAddedItemIdx = some c.method.rank) ∧
    (∀ (cs : List Call) (st : BuilderState) (c : Call) (st' : BuilderState) (n : Nat),
      Builder.calls Builder.new cs = .ok st →
        Builder.perform (Builder.call c) st = .ok st' →
          st.lastAddedItemIdx = some n → n ≤ c.method.rank) ∧
    (∀ (cs : List Call) (st : BuilderState),
      Builder.calls Builder.new cs = .ok st →
        (st.lastAddedItemIdx = none ↔ cs = []) ∧
          (cs ≠ [] → ∃ n, st.lastAddedItemIdx = some n ∧
            (∃ a ∈ cs, a.method.rank = n) ∧ ∀ a ∈ cs, a.method.rank ≤ n)) := by
  refine ⟨perform_lastAddedItemIdx, ?_, ?_⟩
  · intro cs st c st' n h hp hn
    have hsnoc : Builder.calls Builder.new (cs ++ [c]) = .ok st' := by
      rw [Builder.calls_snoc, h]
      exact hp
    have hv := ((calls_new_eq_ok_iff _ _).mp hsnoc).1
    obtain ⟨hv', rfl⟩ := (calls_new_eq_ok_iff cs st).mp h
    rw [validCalls_snoc] at hv
    simp only [stateOf, Option.map_eq_some'] at hn
    obtain ⟨l, hl, rfl⟩ := hn
    exact hv.2.1 l (rank_le_last cs l hv'.1 hl).1
  · intro cs st h
    obtain ⟨hv, rfl⟩ := (calls_new_eq_ok_iff cs st).mp h
    constructor
    · simp [stateOf]
    · intro hne
      cases hl : cs.getLast? with
      | none => exact absurd (List.getLast?_eq_none_iff.mp hl) hne
      | some l =>
        obtain ⟨hmem, hle⟩ := rank_le_last cs l hv.1 hl
        exact ⟨l.method.rank, by simp [stateOf, hl], ⟨l, hmem, rfl⟩, hle⟩

/-- After `element('a').class('b').class('c')` the field is 3, the greatest rank, and
a further `attr` call finds 3 at most its own rank 4. -/
theorem lastAddedItemIdx_is_max_rank_witness :
    (stateOf [⟨.element, "a"⟩, ⟨.class_, "b"⟩, ⟨.class_, "c"⟩]).lastAddedItemIdx = some 3 ∧
      3 ≤ (⟨.attr, "d"⟩ : Call).method.rank :=
  ⟨rfl, lastAddedItemIdx_is_max_rank.2.1 [⟨.element, "a"⟩, ⟨.class_, "b"⟩, ⟨.class_, "c"⟩]
    _ ⟨.attr, "d"⟩ _ 3 rfl rfl rfl⟩

/-! ## What a call that returns writes (C17) -/

theorem Builder.stringifyCall_run (st : BuilderState) :
    (Builder.stringifyCall.run).run st = (.ok (Builder.stringify st), st) := rfl

/-- C17: a call that returns writes its own slot and `lastAddedItemIdx` and nothing
else: the state after it is the state before it with these two fields replaced, new
parts of a repeatable method being put behind the old ones; and `stringify()` leaves
the state as it was, so two calls of it in a row return the same text. -/
theorem returning_call_frame (st : BuilderState) (c : Call) (st' : BuilderState)
    (h : Builder.perform (Builder.call c) st = .ok st') :
    (st' = match c.method with
      | .element => { st with element := c.value, lastAddedItemIdx := some 1 }
      | .id => { st with id := "#" ++ c.value, lastAddedItemIdx := some 2 }
      | .class_ => { st with classes := st.classes ++ ["." ++ c.value],
                             lastAddedItemIdx := some 3 }
      | .attr => { st with attributes := st.attributes ++ ["[" ++ c.value ++ "]"],
                           lastAddedItemIdx := some 4 }
      | .pseudoClass => { st with pseudoClasses := st.pseudoClasses ++ [":" ++ c.value],
                                  lastAddedItemIdx := some 5 }
      | .pseudoElement => { st with pseudoElement := "::" ++ c.value,
                                    lastAddedItemIdx := some 6 }) ∧
      (c.method = .attr →
        st'.element = st.element ∧ st'.id = st.id ∧ st'.classes = st.classes ∧
          st'.pseudoClasses = st.pseudoClasses ∧ st'.pseudoElement = st.pseudoElement ∧
          st.attributes <+: st'.attributes) ∧
      ((Builder.stringifyCall.run).run st').2 = st' ∧
      ((do let first ← Builder.stringifyCall
           let second ← Builder.stringifyCall
           return (first, second) : BuilderM (String × String)).run).run st'
        = (.ok (Builder.stringify st', Builder.stringify st'), st') := by
  have hframe : st' = match c.method with
      | .element => { st with element := c.value, lastAddedItemIdx := some 1 }
      | .id => { st with id := "#" ++ c.value, lastAddedItemIdx := some 2 }
      | .class_ => { st with classes := st.classes ++ ["." ++ c.value],
                             lastAddedItemIdx := some 3 }
      | .attr => { st with attributes := st.attributes ++ ["[" ++ c.value ++ "]"],
                           lastAddedItemIdx := some 4 }
      | .pseudoClass => { st with pseudoClasses := st.pseudoClasses ++ [":" ++ c.value],
                                  lastAddedItemIdx := some 5 }
      | .pseudoElement => { st with pseudoElement := "::" ++ c.value,
                                    lastAddedItemIdx := some 6 } := by
    obtain ⟨m, v⟩ := c
    cases m
    case element =>
      simp only [Builder.call, Builder.perform_element] at h
      split_ifs at h
      cases h
      rfl
    case id =>
      simp only [Builder.call, Builder.perform_id] at h
      split_ifs at h
      cases h
      rfl
    case class_ =>
      simp only [Builder.call, Builder.perform_class] at h
      split_ifs at h
      cases h
      rfl
    case attr =>
      simp only [Builder.call, Builder.perform_attr] at h
      split_ifs at h
      cases h
      rfl
    case pseudoClass =>
      simp only [Builder.call, Builder.perform_pseudoClass] at h
      split_ifs at h
      cases h
      rfl
    case pseudoElement =>
      simp only [Builder.call, Builder.perform_pseudoElement] at h
      split_ifs at h
      cases h
      rfl
  refine ⟨hframe, ?_, rfl, rfl⟩
  intro hm
  rw [hm] at hframe
  subst hframe
  exact ⟨rfl, rfl, rfl, rfl, rfl, List.prefix_append _ _⟩

/-- On the state of `element('a').attr('x')`, the call `attr('y')` returns and only
adds `[y]` behind `[x]`. -/
theorem returning_call_frame_witness :
    Builder.perform (Builder.call ⟨.attr, "y"⟩) (stateOf [⟨.element, "a"⟩, ⟨.attr, "x"⟩])
        = .ok (stateOf [⟨.element, "a"⟩, ⟨.attr, "x"⟩, ⟨.attr, "y"⟩]) ∧
      (stateOf [⟨.element, "a"⟩, ⟨.attr, "x"⟩]).attributes
        <+: (stateOf [⟨.element, "a"⟩, ⟨.attr, "x"⟩, ⟨.attr, "y"⟩]).attributes :=
  ⟨rfl, ((returning_call_frame (stateOf [⟨.element, "a"⟩, ⟨.attr, "x"⟩]) ⟨.attr, "y"⟩
    (stateOf [⟨.element, "a"⟩, ⟨.attr, "x"⟩, ⟨.attr, "y"⟩]) rfl).2.1 rfl).2.2.2.2.2⟩

/-! ## Nesting of `combine` (C19) -/

/-- C19: `combine(combine(A, c1, B), c2, C)` and `combine(A, c1, combine(B, c2, C))`
render the same text, `A c1 B c2 C` over the three texts with single blanks. -/
theorem combine_nesting_irrelevant (A B C : Selector) (c1 c2 : String) :
    (cssSelectorBuilder.combine (cssSelectorBuilder.combine A c1 B) c2 C).stringify
        = (cssSelectorBuilder.combine A c1 (cssSelectorBuilder.combine B c2 C)).stringify ∧
      (cssSelectorBuilder.combine (cssSelectorBuilder.combine A c1 B) c2 C).stringify
        = A.stringify ++ " " ++ c1 ++ " " ++ B.stringify ++ " " ++ c2 ++ " " ++ C.stringify ∧
      (cssSelectorBuilder.combine A c1 (cssSelectorBuilder.combine B c2 C)).stringify
        = A.stringify ++ " " ++ c1 ++ " " ++ B.stringify ++ " " ++ c2 ++ " " ++ C.stringify := by
  simp only [cssSelectorBuilder.combine, Selector.stringify, String.append_assoc, and_self]

/-! ## After a pseudo-element (C18) -/

theorem valuesOf_eq_singleton (m : Method) (v : String) (cs : List Call)
    (hc : (cs.map Call.method).count m ≤ 1) (hmem : (⟨m, v⟩ : Call) ∈ cs) :
    valuesOf m cs = [v] := by
  induction cs with
  | nil => cases hmem
  | cons a cs ih =>
    rw [List.map_cons, List.count_cons] at hc
    by_cases ha : a.method = m
    · have hzero : (cs.map Call.method).count m = 0 := by
        simp only [ha, beq_self_eq_true, if_true] at hc
        omega
      have hnil : valuesOf m cs = [] := by
        rw [valuesOf_eq_nil]
        intro b hb hbm
        exact List.count_eq_zero.mp hzero (List.mem_map.mpr ⟨b, hb, hbm⟩)
      have hav : a = ⟨m, v⟩ := by
        rcases List.mem_cons.mp hmem with h1 | h1
        · exact h1.symm
        · exact absurd rfl ((valuesOf_eq_nil m cs).mp hnil _ h1)
      have := valuesOf_append m [a] cs
      rw [List.singleton_append, hnil, hav] at this
      rw [hav, this]
      simp [valuesOf]
    · have hne : ¬ (a.method == m) = true := by simpa using ha
      have hmem' : (⟨m, v⟩ : Call) ∈ cs := by
        rcases List.mem_cons.mp hmem with h1 | h1
        · exact absurd (by rw [← h1]) ha
        · exact h1
      have hc' : (cs.map Call.method).count m ≤ 1 := by
        simp only [hne, if_false] at hc
        omega
      have := valuesOf_append m [a] cs
      rw [List.singleton_append] at this
      rw [this, ih hc' hmem']
      simp [valuesOf, ha]

/-- C18: once `pseudoElement(v)` has returned on a builder, every further mutating
call throws and leaves the state as it is, and the text of `stringify()` ends in
`::` followed by `v`. -/
theorem pseudoElement_is_terminal (cs : List Call) (st : BuilderState) (v : String)
    (h : Builder.calls Builder.new cs = .ok st) (hv : (⟨.pseudoElement, v⟩ : Call) ∈ cs) :
    (∀ c : Call, (∃ e, (Builder.invoke (Builder.call c) st).1 = .error e) ∧
      (Builder.invoke (Builder.call c) st).2 = st) ∧
      ∃ pre, Builder.stringify st = pre ++ ("::" ++ v) := by
  obtain ⟨hvalid, rfl⟩ := (calls_new_eq_ok_iff cs st).mp h
  constructor
  · intro c
    have hthrow : ∃ e, (Builder.invoke (Builder.call c) (stateOf cs)).1 = .error e := by
      simp only [← perform_eq_error_iff]
      rw [throws_stateOf_iff cs c hvalid]
      by_cases hc : c.method = .pseudoElement
      · exact Or.inr ⟨by rw [hc]; rfl, _, hv, hc.symm⟩
      · refine Or.inl ⟨_, hv, ?_⟩
        obtain ⟨m, w⟩ := c
        cases m <;> first | exact absurd rfl hc | simp [Method.rank]
    obtain ⟨e, he⟩ := hthrow
    exact ⟨⟨e, he⟩, invoke_error_keeps_state _ c e he⟩
  · have hvals := valuesOf_eq_singleton .pseudoElement v cs (hvalid.2 _ rfl) hv
    refine ⟨(stateOf cs).element ++ (stateOf cs).id ++ String.join (stateOf cs).classes
      ++ String.join (stateOf cs).attributes ++ String.join (stateOf cs).pseudoClasses, ?_⟩
    have hpe : (stateOf cs).pseudoElement = "::" ++ v := by
      simp [stateOf, hvals]
    rw [← hpe]
    rfl

/-- After `element('p').pseudoElement('first-line')` a call of `class` throws, the
state stays, and the text `p::first-line` ends in `::first-line`. -/
theorem pseudoElement_is_terminal_witness :
    (∃ e, (Builder.invoke (Builder.call ⟨.class_, "x"⟩)
        (stateOf [⟨.element, "p"⟩, ⟨.pseudoElement, "first-line"⟩])).1 = .error e) ∧
      ∃ pre, Builder.stringify (stateOf [⟨.element, "p"⟩, ⟨.pseudoElement, "first-line"⟩])
        = pre ++ ("::" ++ "first-line") :=
  ⟨((pseudoElement_is_terminal [⟨.element, "p"⟩, ⟨.pseudoElement, "first-line"⟩] _
      "first-line" rfl (by simp)).1 ⟨.class_, "x"⟩).1,
    (pseudoElement_is_terminal [⟨.element, "p"⟩, ⟨.pseudoElement, "first-line"⟩] _
      "first-line" rfl (by simp)).2⟩

/-! ## The entry operations (C16) -/

theorem perform_eq_ok_iff (m : BuilderM Unit) (st st' : BuilderState) :
    Builder.perform m st = .ok st' ↔ Builder.invoke m st = (.ok (), st') := by
  unfold Builder.perform
  rcases h : Builder.invoke m st with ⟨r, s⟩
  cases r <;> simp

theorem start_eq_perform (c : Call) :
    cssSelectorBuilder.start c = Builder.perform (Builder.call c) Builder.new := by
  obtain ⟨m, v⟩ := c
  cases m <;> rfl

theorem start_ok (c : Call) : ∃ st, cssSelectorBuilder.start c = .ok st := by
  obtain ⟨m, v⟩ := c
  cases m <;> exact ⟨_, rfl⟩

theorem startOn_eq (heap : Heap) (c : Call) (st : BuilderState)
    (h : cssSelectorBuilder.start c = .ok st) :
    cssSelectorBuilder.startOn heap c = (.ok heap.length, heap ++ [st]) := by
  rw [start_eq_perform, perform_eq_ok_iff] at h
  simp [cssSelectorBuilder.startOn, Heap.newBuilder, Heap.invoke, h, Except.map]

theorem heap_getElem?_last (heap : Heap) (st : BuilderState) :
    (heap ++ [st])[heap.length]? = some st := by
  simp

theorem heap_getElem?_prev (heap : Heap) (st1 st2 : BuilderState) :
    (heap ++ [st1] ++ [st2])[heap.length]? = some st1 := by
  rw [List.getElem?_append_left (by simp)]
  simp

theorem heap_invoke_other (heap : Heap) (b b' : Nat) (m : BuilderM Unit) (hne : b ≠ b') :
    ((heap.invoke b m).2)[b']? = heap[b']? := by
  unfold Heap.invoke
  cases heap[b]? with
  | none => rfl
  | some st => simp [List.getElem?_set, hne]

/-- C16: each entry operation of `cssSelectorBuilder` returns for every string `v`, with
a builder in the state of the constructor but for the one part written and its rank,
whose text is `v`, `#v`, `.v`, `[v]`, `:v`, `::v`; and the builders of two entry calls
are two objects: a method call on either leaves the state of the other as it was. -/
theorem entry_operations :
    (∀ v : String,
      (cssSelectorBuilder.element v
          = .ok { Builder.new with element := v, lastAddedItemIdx := some 1 } ∧
        (cssSelectorBuilder.element v).map Builder.stringify = .ok v) ∧
      (cssSelectorBuilder.id v
          = .ok { Builder.new with id := "#" ++ v, lastAddedItemIdx := some 2 } ∧
        (cssSelectorBuilder.id v).map Builder.stringify = .ok ("#" ++ v)) ∧
      (cssSelectorBuilder.class_ v
          = .ok { Builder.new with classes := ["." ++ v], lastAddedItemIdx := some 3 } ∧
        (cssSelectorBuilder.class_ v).map Builder.stringify = .ok ("." ++ v)) ∧
      (cssSelectorBuilder.attr v
          = .ok { Builder.new with attributes := ["[" ++ v ++ "]"],
                                   lastAddedItemIdx := some 4 } ∧
        (cssSelectorBuilder.attr v).map Builder.stringify = .ok ("[" ++ v ++ "]")) ∧
      (cssSelectorBuilder.pseudoClass v
          = .ok { Builder.new with pseudoClasses := [":" ++ v], lastAddedItemIdx := some 5 } ∧
        (cssSelectorBuilder.pseudoClass v).map Builder.stringify = .ok (":" ++ v)) ∧
      (cssSelectorBuilder.pseudoElement v
          = .ok { Builder.new with pseudoElement := "::" ++ v, lastAddedItemIdx := some 6 } ∧
        (cssSelectorBuilder.pseudoElement v).map Builder.stringify = .ok ("::" ++ v))) ∧
    (∀ (heap : Heap) (c1 c2 c : Call),
      ∃ (b1 b2 : Nat) (st1 st2 : BuilderState),
        cssSelectorBuilder.start c1 = .ok st1 ∧ cssSelectorBuilder.start c2 = .ok st2 ∧
        (cssSelectorBuilder.startOn heap c1).1 = .ok b1 ∧
        (cssSelectorBuilder.startOn (cssSelectorBuilder.startOn heap c1).2 c2).1 = .ok b2 ∧
        b1 ≠ b2 ∧
        ((cssSelectorBuilder.startOn (cssSelectorBuilder.startOn heap c1).2 c2).2)[b1]?
          = some st1 ∧
        ((cssSelectorBuilder.startOn (cssSelectorBuilder.startOn heap c1).2 c2).2)[b2]?
          = some st2 ∧
        (((cssSelectorBuilder.startOn (cssSelectorBuilder.startOn heap c1).2 c2).2.invoke b1
          (Builder.call c)).2)[b2]? = some st2 ∧
        (((cssSelectorBuilder.startOn (cssSelectorBuilder.startOn heap c1).2 c2).2.invoke b2
          (Builder.call c)).2)[b1]? = some st1) := by
  constructor
  · intro v
    refine ⟨⟨rfl, ?_⟩, ⟨rfl, ?_⟩, ⟨rfl, ?_⟩, ⟨rfl, ?_⟩, ⟨rfl, ?_⟩, ⟨rfl, ?_⟩⟩
    all_goals
      simp [cssSelectorBuilder.element, cssSelectorBuilder.id, cssSelectorBuilder.class_,
        cssSelectorBuilder.attr, cssSelectorBuilder.pseudoClass,
        cssSelectorBuilder.pseudoElement, Builder.perform_element, Builder.perform_id,
        Builder.perform_class, Builder.perform_attr, Builder.perform_pseudoClass,
        Builder.perform_pseudoElement, Builder.new, truthyString, truthyIdx, idxAbove,
        Except.map, Builder.stringify, String.join]
  · intro heap c1 c2 c
    obtain ⟨st1, h1⟩ := start_ok c1
    obtain ⟨st2, h2⟩ := start_ok c2
    have hne : heap.length ≠ (heap ++ [st1]).length := by simp
    refine ⟨heap.length, (heap ++ [st1]).length, st1, st2, h1, h2, ?_, ?_, hne, ?_, ?_, ?_, ?_⟩
    · rw [startOn_eq heap c1 st1 h1]
    · rw [startOn_eq heap c1 st1 h1, startOn_eq _ c2 st2 h2]
    · rw [startOn_eq heap c1 st1 h1, startOn_eq _ c2 st2 h2]
      exact heap_getElem?_prev heap st1 st2
    · rw [startOn_eq heap c1 st1 h1, startOn_eq _ c2 st2 h2]
      exact heap_getElem?_last (heap ++ [st1]) st2
    · rw [startOn_eq heap c1 st1 h1, startOn_eq _ c2 st2 h2, heap_invoke_other _ _ _ _ hne]
      exact heap_getElem?_last (heap ++ [st1]) st2
    · rw [startOn_eq heap c1 st1 h1, startOn_eq _ c2 st2 h2,
        heap_invoke_other _ _ _ _ hne.symm]
      exact heap_getElem?_prev heap st1 st2

/-! ## The JSON helpers (C14) -/

/-- C14 as stated fails: `null` is plain data and the host codec brings it back, but
`fromJSON(Rectangle.prototype, getJSON(null))` throws the `TypeError` of
`Object.setPrototypeOf`; and for the string `'abc'` the value comes back with no
prototype attached. -/
theorem fromJSON_null_counterexample :
    JSON.parse (getJSON JSON.stringify .null) = .ok .null ∧
      fromJSON JSON.parse Rectangle.prototype (getJSON JSON.stringify .null)
        = .error (.error "Object.setPrototypeOf called on null or undefined") ∧
      JSON.parse (getJSON JSON.stringify (.string "abc")) = .ok (.string "abc") ∧
      fromJSON JSON.parse Rectangle.prototype (getJSON JSON.stringify (.string "abc"))
        = .ok ⟨.string "abc", none⟩ :=
  ⟨rfl, rfl, rfl, rfl⟩

/-- C14, amended: with a host codec that brings `obj` back from its text, for `obj` an
object or an array and every prototype `proto`, `fromJSON(proto, getJSON(obj))` is
`obj`, field by field, with `proto` attached; and for every rectangle `r` that the
codec brings back, `fromJSON(Rectangle.prototype, getJSON(r)).getArea()` is
`r.getArea()`. -/
theorem fromJSON_getJSON_object (stringify : JSValue → String)
    (parse : String → Except JSValue JSValue) :
    (∀ (proto : Prototype) (obj : JSValue),
      parse (stringify obj) = .ok obj → obj.isObject = true →
        fromJSON parse proto (getJSON stringify obj) = .ok ⟨obj, some proto⟩) ∧
    (∀ r : Rectangle,
      parse (stringify r.toJSValue) = .ok r.toJSValue →
        (fromJSON parse Rectangle.prototype (getJSON stringify r.toJSValue)).bind
            (fun o => o.call "getArea")
          = .ok (.number (Rectangle.getArea.run r).1)) := by
  have hobj : ∀ (proto : Prototype) (obj : JSValue),
      parse (stringify obj) = .ok obj → obj.isObject = true →
        fromJSON parse proto (getJSON stringify obj) = .ok ⟨obj, some proto⟩ := by
    intro proto obj hround hkind
    have hbind : fromJSON parse proto (getJSON stringify obj)
        = Object.setPrototypeOf obj proto := by
      unfold fromJSON getJSON
      rw [hround]
      rfl
    rw [hbind]
    cases obj <;> first | rfl | cases hkind
  refine ⟨hobj, fun r hround => ?_⟩
  rw [hobj Rectangle.prototype r.toJSValue hround rfl]
  rfl

/-- The rectangle `new Rectangle(10, 20)` goes through the host codec of the examples,
as the text `{"width":10,"height":20}`, and `getArea()` on what `fromJSON` returns
is 200. -/
theorem fromJSON_getJSON_object_witness :
    getJSON JSON.stringify (Rectangle.new 10 20).toJSValue
        = "\x7b\"width\":10,\"height\":20\x7d" ∧
      JSON.parse (JSON.stringify (Rectangle.new 10 20).toJSValue)
        = .ok (Rectangle.new 10 20).toJSValue ∧
      (fromJSON JSON.parse Rectangle.prototype
          (getJSON JSON.stringify (Rectangle.new 10 20).toJSValue)).bind
            (fun o => o.call "getArea")
        = .ok (.number 200) :=
  ⟨rfl, rfl, ((fromJSON_getJSON_object JSON.stringify JSON.parse).2 (Rectangle.new 10 20)
    rfl).trans rfl⟩

end CoreJs
